import Mathlib

/-!
Verification development for the shop-chat-agent client.

The definitions below are a shallow embedding of the client-side streaming
chat code (`extensions/chat-bubble/assets/chat.js`) and of the token helpers
of the auth route (`app/routes/api.chat-auth.jsx`).  Strings are modelled as
`List Char` where character-level reasoning is needed, and as `String`
elsewhere; JavaScript `sessionStorage` slots become fields of an explicit
`Store` record; asynchronous callbacks become explicit lists of inputs
(network responses, incoming chunks) consumed in order by total functions.
-/

/-! ## Frame decoder (`API.streamResponse`, chat.js lines 618-650)

The stream-read loop keeps a growing `buffer`; on each incoming chunk it
appends the chunk, splits on the double-newline delimiter, emits every
segment but the last, and retains the last segment as the new buffer.
`splitDD` models JavaScript `String.prototype.split('\n\n')`: leftmost,
non-overlapping, greedy scanning producing the list of segments. -/

def splitDD : List Char → List (List Char)
  | [] => [[]]
  | '\n' :: '\n' :: rest => [] :: splitDD rest
  | c :: rest =>
    match splitDD rest with
    | [] => [[c]]
    | s :: ss => (c :: s) :: ss

/-- Double-newline frame delimiter used on the wire. -/
def dd : List Char := ['\n', '\n']

/-- A string free of the frame delimiter: splitting it returns it unchanged. -/
def noDD (s : List Char) : Prop := splitDD s = [s]

instance (s : List Char) : Decidable (noDD s) := by
  unfold noDD; infer_instance

/-- One iteration of the stream-read loop body on state (emitted, buffer):
`buffer += chunk; const lines = buffer.split('\n\n'); buffer = lines.pop() || '';`
then every element of `lines` is emitted in order. -/
def stepChunk (st : List (List Char) × List Char) (chunk : List Char) :
    List (List Char) × List Char :=
  let lines := splitDD (st.2 ++ chunk)
  (st.1 ++ lines.dropLast, lines.getLastD [])

/-- The whole read loop: starts with an empty buffer, folds over incoming
chunks.  When the stream ends (`done`), the loop exits and the leftover
buffer is dropped: the result is the pair (emitted frames, final buffer)
and only the first component is ever processed further. -/
def runDecoder (chunks : List (List Char)) : List (List Char) × List Char :=
  chunks.foldl stepChunk ([], [])

/-- Concatenation of complete frames, each terminated by the delimiter. -/
def encodeFrames (frames : List (List Char)) : List Char :=
  (frames.map (fun f => f ++ dd)).flatten

/-- A frame the greedy splitter reproduces verbatim: it contains no
delimiter and does not end with a newline character. -/
def okFrame (f : List Char) : Prop := noDD f ∧ f.getLast? ≠ some '\n'

instance (f : List Char) : Decidable (okFrame f) := by
  unfold okFrame; infer_instance

/-! ## Auth resume poller (`Auth.startTokenPolling`, chat.js lines 880-941)

`sessionStorage` is modelled by `Store`; `none` stands for an absent key.
External fetch responses are supplied as an explicit list, one entry per
status-check network call, consumed in order.  `setTimeout` scheduling is
recorded as a `schedule` action carrying the delay in milliseconds. -/

/-- The three sessionStorage slots the chat client uses:
`shopAiConversationId`, `shopAiLastMessage`, `shopAiTokenPollingId`. -/
structure Store where
  conversationId : Option String
  lastMessage : Option String
  pollingId : Option String
deriving DecidableEq, Repr

/-- Outcome of one status-check network call: a network/HTTP failure (the
`catch` path, which also covers non-ok responses) or a JSON body with a
`status` field. -/
inductive PollResult where
  | netError
  | ok (status : String)
deriving DecidableEq, Repr

/-- Observable actions of the poller: console logging, `setTimeout`
scheduling (delay in ms), adding a chat message, re-invoking
`API.streamResponse`, and showing the typing indicator. -/
inductive PollAction where
  | logInfo
  | logError
  | schedule (ms : Nat)
  | addMessage (text role : String)
  | streamResponse (message conversationId : String)
  | showTyping
deriving DecidableEq, Repr

/-- `maxAttempts` constant of `startTokenPolling`. -/
def maxAttempts : Nat := 30

/-- The fixed success message added before replaying (the literal text
"Authorization successful! I'm now continuing with your request." is
abbreviated to avoid quoting issues; only its identity matters). -/
def authSuccessText : String := "authorization-successful-continuing"

/-- One invocation of the `poll` closure. Mirrors the body: the fencing
check against the stored polling id, the attempt bound check, the
increment, the fetch (whose outcome is `res`), and the three outcomes:
authorized (replay pending message if present, clear the polling id),
not yet authorized (schedule again in 10s), or error (log, schedule in
10s). -/
inductive TickOutcome where
  | superseded
  | exhausted
  | waiting
  | resumed
deriving DecidableEq, Repr

structure TickResult where
  outcome : TickOutcome
  attempts : Nat
  store : Store
  actions : List PollAction
deriving DecidableEq, Repr

def pollTick (myId convId : String) (attempts : Nat) (store : Store)
    (res : PollResult) : TickResult :=
  if store.pollingId ≠ some myId then
    -- console.log('Another polling session has started, stopping this one')
    ⟨.superseded, attempts, store, [.logInfo]⟩
  else if attempts ≥ maxAttempts then
    -- console.log('Max polling attempts reached, stopping')
    ⟨.exhausted, attempts, store, [.logInfo]⟩
  else
    match res with
    | .netError =>
      -- console.error(...); setTimeout(poll, 10000)
      ⟨.waiting, attempts + 1, store, [.logError, .schedule 10000]⟩
    | .ok status =>
      if status = "authorized" then
        match store.lastMessage with
        | some msg =>
          ⟨.resumed, attempts + 1,
           { store with lastMessage := none, pollingId := none },
           [.logInfo, .addMessage authSuccessText "assistant",
            .streamResponse msg convId, .showTyping]⟩
        | none =>
          ⟨.resumed, attempts + 1, { store with pollingId := none }, [.logInfo]⟩
      else
        -- console.log('Token not available yet, polling again in 10s')
        ⟨.waiting, attempts + 1, store, [.logInfo, .schedule 10000]⟩

/-- Runs the polling loop: each scheduled tick consumes the next external
fetch result; the loop continues only while a tick ends in `waiting`. An
empty result list means no further network response was observed. -/
def runPoller (myId convId : String) :
    Nat → Store → List PollResult → Store × Nat × List PollAction
  | attempts, store, [] => (store, attempts, [])
  | attempts, store, r :: rest =>
    let t := pollTick myId convId attempts store r
    match t.outcome with
    | .waiting =>
      let rec2 := runPoller myId convId t.attempts t.store rest
      (rec2.1, rec2.2.1, t.actions ++ rec2.2.2)
    | _ => (t.store, t.attempts, t.actions)

/-- `Auth.startTokenPolling` entry (lines 880-888): bails out on a missing
conversation id, otherwise records a fresh polling id as the current one
and schedules the first tick after 2000 ms. -/
def startTokenPolling (conversationId : Option String) (newId : String)
    (store : Store) : Store × List PollAction :=
  match conversationId with
  | none => (store, [])
  | some _ =>
    ({ store with pollingId := some newId }, [.logInfo, .schedule 2000])

/-- `Auth.openAuthPopup` tail (lines 862-872): after opening the popup, if a
conversation id is stored, an in-progress message is added and polling is
started for it. -/
def openAuthPopup (newId : String) (store : Store) : Store × List PollAction :=
  match store.conversationId with
  | none => (store, [])
  | some cid =>
    let r := startTokenPolling (some cid) newId store
    (r.1,
     .addMessage "Authentication in progress. Please complete the process in the popup window." "assistant"
       :: r.2)

/-- A poll result that does not authorize: a network failure or a status
other than `authorized`. -/
def notAuthorizing : PollResult → Prop
  | .netError => True
  | .ok status => status ≠ "authorized"

instance (r : PollResult) : Decidable (notAuthorizing r) := by
  cases r <;> (unfold notAuthorizing; infer_instance)

/-- Projection of the delays scheduled by a list of poll actions. -/
def scheduledDelays (acts : List PollAction) : List Nat :=
  acts.filterMap fun a =>
    match a with
    | .schedule ms => some ms
    | _ => none

/-- Projection of the `API.streamResponse` re-invocations of an action list. -/
def streamCalls (acts : List PollAction) : List (String × String) :=
  acts.filterMap fun a =>
    match a with
    | .streamResponse m c => some (m, c)
    | _ => none

/-- An action that is pure logging (no state mutation, no UI change). -/
def isLogOnly : PollAction → Prop
  | .logInfo => True
  | .logError => True
  | _ => False

instance (a : PollAction) : Decidable (isLogOnly a) := by
  cases a <;> (unfold isLogOnly; infer_instance)


/-! ## Event dispatcher (`API.handleStreamEvent`, chat.js lines 667-738)

The DOM message elements become a list of `Elem`; the mutable
`currentMessageElement` reference becomes an index into that list.  The
`updateCurrentElement` callback becomes the returned state's new index.
UI side effects are recorded as a list of `Effect`s in invocation order. -/

/-- Display state of a message element: raw streamed text (`textContent`
set from `dataset.rawText`), markdown-rendered content (after
`Formatting.formatMessageContent`), or one of the fixed failure strings. -/
inductive Display where
  | raw
  | renderedMarkdown
  | fixedText (t : String)
deriving DecidableEq, Repr

/-- One assistant message element: its accumulated `dataset.rawText` and
what is currently displayed. -/
structure Elem where
  rawText : String
  display : Display
deriving DecidableEq, Repr

/-- State visible to the dispatcher: the sessionStorage `Store`, the
message elements appended so far in this stream, and the index of the
current (active) message element. -/
structure ChatState where
  store : Store
  elems : List Elem
  currentIdx : Nat
deriving DecidableEq, Repr

/-- The typed protocol events of the wire (`data.type` plus the fields
each case reads).  `unknown` stands for any unrecognized `type`, which the
switch statement ignores. -/
inductive StreamEvent where
  | id (conversationId : Option String)
  | chunk (text : String)
  | messageComplete
  | endTurn
  | errorEvent (msg : String)
  | rateLimitExceeded (msg : String)
  | authRequired
  | productResults (products : List String)
  | toolUse (toolUseMessage : Option String)
  | newMessage
  | contentBlockComplete
  | unknown
deriving DecidableEq, Repr

/-- UI side effects of the dispatcher, in invocation order. -/
inductive Effect where
  | removeTyping
  | showTyping
  | scroll
  | logError
  | displayProducts (products : List String)
  | addToolUseMsg (msg : String)
  | addMessage (text role : String)
deriving DecidableEq, Repr

/-- Fixed user-facing text of the `error` case ("Sorry, I couldn\u0027t
process your request. Please try again later." — abbreviated here). -/
def streamErrorText : String := "request-failed-try-again-later"

/-- Fixed user-facing text of the `rate_limit_exceeded` case ("Sorry, our
servers are currently busy. Please try again later." — abbreviated). -/
def rateLimitText : String := "servers-busy-try-again-later"

/-- Pointwise update of the element at index `i` (the DOM mutation of the
element `currentMessageElement` points at). -/
def updateAt {a : Type} (i : Nat) (f : a → a) : List a → List a
  | [] => []
  | x :: xs =>
    match i with
    | 0 => f x :: xs
    | j + 1 => x :: updateAt j f xs

/-- `API.handleStreamEvent(data, currentMessageElement, messagesContainer,
userMessage, updateCurrentElement)`: one synchronous state transition plus
recorded UI effects per decoded event. -/
def handleStreamEvent (ev : StreamEvent) (userMessage : String)
    (s : ChatState) : ChatState × List Effect :=
  match ev with
  | .id cid =>
    match cid with
    | some c =>
      ({ s with store := { s.store with conversationId := some c } }, [])
    | none => (s, [])
  | .chunk t =>
    ({ s with
        elems :=
          updateAt s.currentIdx
            (fun e => { e with rawText := e.rawText ++ t, display := .raw })
            s.elems },
     [.removeTyping, .scroll])
  | .messageComplete =>
    ({ s with
        elems :=
          updateAt s.currentIdx
            (fun e => { e with display := .renderedMarkdown })
            s.elems },
     [.removeTyping, .scroll])
  | .endTurn => (s, [.removeTyping])
  | .errorEvent _ =>
    ({ s with
        elems :=
          updateAt s.currentIdx
            (fun e => { e with display := .fixedText streamErrorText })
            s.elems },
     [.logError, .removeTyping])
  | .rateLimitExceeded _ =>
    ({ s with
        elems :=
          updateAt s.currentIdx
            (fun e => { e with display := .fixedText rateLimitText })
            s.elems },
     [.logError, .removeTyping])
  | .authRequired =>
    -- sessionStorage.setItem('shopAiLastMessage', userMessage || '')
    ({ s with store := { s.store with lastMessage := some userMessage } }, [])
  | .productResults ps => (s, [.displayProducts ps])
  | .toolUse m =>
    match m with
    | some msg => (s, [.addToolUseMsg msg])
    | none => (s, [])
  | .newMessage =>
    ({ s with
        elems :=
          updateAt s.currentIdx
            (fun e => { e with display := .renderedMarkdown })
            s.elems ++ [{ rawText := "", display := .raw }],
        currentIdx := s.elems.length },
     [.showTyping])
  | .contentBlockComplete => (s, [.showTyping])
  | .unknown => (s, [])

/-- Initial per-stream state (lines 622-628): one empty assistant element
is appended and becomes the current one. -/
def startStream (store : Store) : ChatState :=
  { store := store, elems := [{ rawText := "", display := .raw }], currentIdx := 0 }

/-- Number of elements the current-element index designates: the number of
valid positions equal to `currentIdx` (1 exactly when the index points at
an existing element — the active MessageFrame). -/
def activeCount (s : ChatState) : Nat :=
  ((List.range s.elems.length).filter (fun i => i == s.currentIdx)).length

/-- Drops a literal prefix, or fails. -/
def stripPrefixChars : List Char → List Char → Option (List Char)
  | [], s => some s
  | _ :: _, [] => none
  | p :: ps, c :: cs => if p == c then stripPrefixChars ps cs else none

/-- The 6-character literal `data: ` every meaningful frame starts with. -/
def dataPrefix : List Char := ['d', 'a', 't', 'a', ':', ' ']

/-- `line.startsWith('data: ')`, at character level. -/
def startsWithData (line : String) : Bool :=
  (stripPrefixChars dataPrefix line.toList).isSome

/-- Dispatch of one complete frame from the read loop (lines 639-648):
only `data: `-prefixed frames are considered; `line.slice(6)` — the payload
after the prefix — is decoded by `decode` (modelling `JSON.parse`); a
decode failure is logged (`console.error`) and the frame is dropped. -/
def processFrame (decode : String → Option StreamEvent) (userMessage : String)
    (s : ChatState) (line : String) : ChatState × List Effect :=
  if startsWithData line then
    match decode (String.mk (line.toList.drop 6)) with
    | some ev => handleStreamEvent ev userMessage s
    | none => (s, [.logError])
  else (s, [])

/-- Sequential, single-threaded processing of a list of items, each step
producing a new state and some effects; effects accumulate in order.  This
is the shape of the `for (const line of lines)` loop and of successive
`handleStreamEvent` invocations. -/
def runSteps {s e i : Type} (step : s → i → s × List e) (items : List i)
    (st : s) : s × List e :=
  items.foldl (fun acc it =>
    ((step acc.1 it).1, acc.2 ++ (step acc.1 it).2)) (st, [])

/-- Sequential processing of the frames of one stream, accumulating
effects in order. -/
def processFrames (decode : String → Option StreamEvent) (userMessage : String)
    (lines : List String) (s : ChatState) : ChatState × List Effect :=
  runSteps (processFrame decode userMessage) lines s

/-- Sequential processing of already-decoded events. -/
def processEvents (userMessage : String) (events : List StreamEvent)
    (s : ChatState) : ChatState × List Effect :=
  runSteps (fun st ev => handleStreamEvent ev userMessage st) events s

/-! ## Tool-use message parsing (`Message.addToolUse`, chat.js lines 379-445)

The regex `/Calling tool: (\w+) with arguments: (.+)/` is embedded
directly: an unanchored leftmost match of the literal prefix, a non-empty
maximal run of word characters, the literal middle, and a non-empty run of
non-newline characters.  (Backtracking is vacuous for this pattern: `\w+`
ends at the first non-word character, and `.+` at the first newline.) -/

/-- JavaScript `\w` (ASCII letters, digits, underscore). -/
def isWordChar (c : Char) : Bool := c.isAlphanum || c == '_'

/-- The literal "Calling tool: " of the pattern. -/
def callingToolLit : List Char :=
  ['C', 'a', 'l', 'l', 'i', 'n', 'g', ' ', 't', 'o', 'o', 'l', ':', ' ']

/-- The literal " with arguments: " of the pattern. -/
def withArgsLit : List Char :=
  [' ', 'w', 'i', 't', 'h', ' ', 'a', 'r', 'g', 'u', 'm', 'e', 'n', 't', 's', ':', ' ']

/-- Attempts the pattern at the current position, capturing (name, args). -/
def matchToolAt (s : List Char) : Option (List Char × List Char) :=
  match stripPrefixChars callingToolLit s with
  | none => none
  | some r1 =>
    let name := r1.takeWhile isWordChar
    if name.isEmpty then none
    else
      match stripPrefixChars withArgsLit (r1.drop name.length) with
      | none => none
      | some r2 =>
        let args := r2.takeWhile (fun c => c != '\n')
        if args.isEmpty then none else some (name, args)

/-- Leftmost match: tries each start position in order (`String.match`
returns the first position where the regex matches). -/
def findToolMatch : List Char → Option (List Char × List Char)
  | [] => none
  | c :: rest =>
    match matchToolAt (c :: rest) with
    | some r => some r
    | none => findToolMatch rest

/-- What `Message.addToolUse` renders: a structured header-plus-arguments
card on a pattern match, or the whole message as plain text otherwise. -/
inductive ToolDisplay where
  | toolCard (name argsShown : String)
  | plainText (text : String)
deriving DecidableEq, Repr

/-- `Message.addToolUse`: a single pattern match; on success the argument
string is opportunistically pretty-printed as JSON (`jsonPretty` models
`JSON.parse` + `JSON.stringify`, returning `none` on a parse failure, in
which case the raw text is shown); on failure the whole message becomes a
plain-text element.  Every call produces exactly one rendered element. -/
def addToolUse (jsonPretty : String → Option String) (toolMessage : String) :
    ToolDisplay :=
  match findToolMatch toolMessage.toList with
  | none => .plainText toolMessage
  | some (name, args) =>
    .toolCard (String.mk name)
      (match jsonPretty (String.mk args) with
       | some fmt => fmt
       | none => String.mk args)

/-! ## History fetch (`API.fetchChatHistory`, chat.js lines 745-817)

The fetch outcome is abstracted to `HistoryResult`: `fetchError` covers a
thrown fetch, a non-ok response and a JSON body failure (all reach the
same `catch`).  `contentDecode` models `JSON.parse` on a stored message's
`content` (an array of typed content blocks), `none` meaning the parse
threw and the raw content string is rendered instead. -/

structure StoredMessage where
  role : String
  content : String
deriving DecidableEq, Repr

inductive ContentBlock where
  | text (t : String)
  | other (btype : String)
deriving DecidableEq, Repr

inductive HistoryResult where
  | fetchError
  | ok (messages : List StoredMessage)

/-- Rendering of one stored message: text blocks are added, non-text
blocks are skipped; undecodable content is added verbatim. -/
def renderStored (contentDecode : String → Option (List ContentBlock))
    (m : StoredMessage) : List Effect :=
  match contentDecode m.content with
  | some blocks =>
    blocks.filterMap fun b =>
      match b with
      | .text t => some (.addMessage t m.role)
      | .other _ => none
  | none => [.addMessage m.content m.role]

/-- `API.fetchChatHistory`: on failure the welcome message is shown and
the stored conversation id is removed; on success the id is kept and the
stored messages (or the welcome message, if none) are rendered. -/
def fetchChatHistory (contentDecode : String → Option (List ContentBlock))
    (welcome : String) (res : HistoryResult) (store : Store) :
    Store × List Effect :=
  match res with
  | .fetchError =>
    ({ store with conversationId := none }, [.addMessage welcome "assistant"])
  | .ok msgs =>
    if msgs.isEmpty then (store, [.addMessage welcome "assistant"])
    else (store, (msgs.map (renderStored contentDecode)).flatten)



/-! ## Auth token helpers (`api.chat-auth.jsx` lines 18-39)

`generateToken` is `Buffer.from(JSON.stringify({userId, exp})).toString('base64')`
and `parseToken` is `JSON.parse(Buffer.from(token, 'base64').toString('utf8'))`
followed by the expiry check, returning null on any failure.  The library
functions are embedded concretely: UTF-8 encoding/decoding of character
lists, base64 with the standard alphabet (decoding leniently skips
non-alphabet characters, as Node does), `JSON.stringify` specialized to
the two-field payload record (with standard string escaping), and
`JSON.parse` specialized to the payload shape that `stringify` emits.
Timestamps (`Date.now()`) are milliseconds as `Nat`. -/

structure TokenPayload where
  userId : String
  exp : Nat
deriving DecidableEq, Repr

/-- UTF-8 bytes of one character (1-4 bytes by scalar value range). -/
def utf8EncodeChar (c : Char) : List Nat :=
  let n := c.toNat
  if n < 0x80 then [n]
  else if n < 0x800 then [0xC0 + n / 0x40, 0x80 + n % 0x40]
  else if n < 0x10000 then
    [0xE0 + n / 0x1000, 0x80 + n / 0x40 % 0x40, 0x80 + n % 0x40]
  else
    [0xF0 + n / 0x40000, 0x80 + n / 0x1000 % 0x40, 0x80 + n / 0x40 % 0x40,
     0x80 + n % 0x40]

def utf8Encode (s : List Char) : List Nat := (s.map utf8EncodeChar).flatten

/-- Whether a scalar value is a valid character (no surrogates, below
0x110000); mirrors the check guarding `Char` construction. -/
def validScalar (n : Nat) : Bool := decide (n < 0xd800 ∨ (0xdfff < n ∧ n < 0x110000))

/-- A UTF-8 continuation byte (10xxxxxx). -/
def contByte (b : Nat) : Bool := decide (0x80 ≤ b) && decide (b < 0xC0)

/-- UTF-8 decoding loop: `pending` continuation bytes remain for the
character whose high bits are accumulated in `acc` (`pending = 0` between
characters). -/
def utf8DecodeAux : Nat → Nat → List Nat → Option (List Char)
  | 0, _, [] => some []
  | _ + 1, _, [] => none
  | 0, _, b :: rest =>
    if b < 0x80 then
      Option.map (fun cs => Char.ofNat b :: cs) (utf8DecodeAux 0 0 rest)
    else if b < 0xC0 then none
    else if b < 0xE0 then utf8DecodeAux 1 (b - 0xC0) rest
    else if b < 0xF0 then utf8DecodeAux 2 (b - 0xE0) rest
    else if b < 0xF8 then utf8DecodeAux 3 (b - 0xF0) rest
    else none
  | p + 1, acc, b :: rest =>
    if contByte b then
      if p = 0 then
        Option.map (fun cs => Char.ofNat (acc * 0x40 + (b - 0x80)) :: cs)
          (utf8DecodeAux 0 0 rest)
      else utf8DecodeAux p (acc * 0x40 + (b - 0x80)) rest
    else none

/-- UTF-8 decoding; `none` on malformed input (Node would substitute
replacement characters, which then fail the JSON parse just the same). -/
def utf8Decode (bs : List Nat) : Option (List Char) := utf8DecodeAux 0 0 bs

/-- Standard base64 alphabet, index to character. -/
def b64EncChar (n : Nat) : Char :=
  if n < 26 then Char.ofNat ('A'.toNat + n)
  else if n < 52 then Char.ofNat ('a'.toNat + (n - 26))
  else if n < 62 then Char.ofNat ('0'.toNat + (n - 52))
  else if n = 62 then '+'
  else '/'

/-- Standard base64 alphabet, character to index (`none` for everything
else, including padding). -/
def b64DecChar (c : Char) : Option Nat :=
  if 'A' ≤ c ∧ c ≤ 'Z' then some (c.toNat - 'A'.toNat)
  else if 'a' ≤ c ∧ c ≤ 'z' then some (c.toNat - 'a'.toNat + 26)
  else if '0' ≤ c ∧ c ≤ '9' then some (c.toNat - '0'.toNat + 52)
  else if c = '+' then some 62
  else if c = '/' then some 63
  else none

/-- Base64 encoding of a byte list, with `=` padding. -/
def b64Encode : List Nat → List Char
  | [] => []
  | [a] => [b64EncChar (a / 4), b64EncChar (a % 4 * 16), '=', '=']
  | [a, b] =>
    [b64EncChar (a / 4), b64EncChar (a % 4 * 16 + b / 16),
     b64EncChar (b % 16 * 4), '=']
  | a :: b :: c :: rest =>
    b64EncChar (a / 4) :: b64EncChar (a % 4 * 16 + b / 16) ::
      b64EncChar (b % 16 * 4 + c / 64) :: b64EncChar (c % 64) :: b64Encode rest

/-- Regrouping of 6-bit values into bytes (lenient: trailing garbage that
cannot form a byte is dropped, as Node's decoder does). -/
def b64DecodeVals : List Nat → List Nat
  | a :: b :: c :: d :: rest =>
    (a * 4 + b / 16) :: (b % 16 * 16 + c / 4) :: (c % 4 * 64 + d) ::
      b64DecodeVals rest
  | [a, b, c] => [a * 4 + b / 16, b % 16 * 16 + c / 4]
  | [a, b] => [a * 4 + b / 16]
  | _ => []

/-- `Buffer.from(s, 'base64')`: non-alphabet characters (padding included)
are skipped, the rest decoded in groups. Never fails. -/
def b64Decode (s : List Char) : List Nat := b64DecodeVals (s.filterMap b64DecChar)

/-- Lowercase hex digit. -/
def hexDigitChar (n : Nat) : Char :=
  if n < 10 then Char.ofNat ('0'.toNat + n) else Char.ofNat ('a'.toNat + (n - 10))

/-- JSON string escaping as `JSON.stringify` performs it: quote, backslash,
the short control escapes, `\u00XX` for other control characters, and
everything else verbatim. -/
def escapeJsonChar (c : Char) : List Char :=
  if c = '"' then ['\\', '"']
  else if c = '\\' then ['\\', '\\']
  else if c = '\n' then ['\\', 'n']
  else if c = '\r' then ['\\', 'r']
  else if c = '\t' then ['\\', 't']
  else if c.toNat = 8 then ['\\', 'b']
  else if c.toNat = 12 then ['\\', 'f']
  else if c.toNat < 0x20 then
    ['\\', 'u', '0', '0', hexDigitChar (c.toNat / 16), hexDigitChar (c.toNat % 16)]
  else [c]

def escapeJsonString (s : List Char) : List Char := (s.map escapeJsonChar).flatten

/-- Little-endian decimal digits of `n`, with `n` itself as fuel. -/
def digitsFuel : Nat → Nat → List Nat
  | 0, _ => []
  | fuel + 1, n => if n = 0 then [] else n % 10 :: digitsFuel fuel (n / 10)

def natDigitsLE (n : Nat) : List Nat := digitsFuel n n

def digitChar (d : Nat) : Char := Char.ofNat (48 + d)

/-- Decimal numeral of `n`, most significant digit first. -/
def natChars (n : Nat) : List Char :=
  if n = 0 then ['0'] else (natDigitsLE n).reverse.map digitChar

/-- The literal `{"userId":"` that opens the serialized payload. -/
def userIdKeyLit : List Char :=
  ['{', '"', 'u', 's', 'e', 'r', 'I', 'd', '"', ':', '"']

/-- The literal `,"exp":` after the closing quote of the userId string. -/
def expKeyLit : List Char := [',', '"', 'e', 'x', 'p', '"', ':']

/-- `JSON.stringify({userId, exp})`: field order follows the object
literal of `generateToken`. -/
def jsonStringifyPayload (p : TokenPayload) : List Char :=
  userIdKeyLit ++ escapeJsonString p.userId.toList ++ '"' :: expKeyLit ++
    natChars p.exp ++ ['}']

/-- Value of one of the short JSON escapes. -/
def unescapeChar (e : Char) : Option Char :=
  if e = '"' then some '"'
  else if e = '\\' then some '\\'
  else if e = '/' then some '/'
  else if e = 'n' then some '\n'
  else if e = 'r' then some '\r'
  else if e = 't' then some '\t'
  else if e = 'b' then some (Char.ofNat 8)
  else if e = 'f' then some (Char.ofNat 12)
  else none

/-- Hex digit value (JSON accepts both cases). -/
def hexVal (c : Char) : Option Nat :=
  if '0' ≤ c ∧ c ≤ '9' then some (c.toNat - '0'.toNat)
  else if 'a' ≤ c ∧ c ≤ 'f' then some (c.toNat - 'a'.toNat + 10)
  else if 'A' ≤ c ∧ c ≤ 'F' then some (c.toNat - 'A'.toNat + 10)
  else none

/-- Parsing mode inside a JSON string: plain characters, just after a
backslash, or inside a `\u` escape with `k` hex digits still to read and
the value so far in `acc`. -/
inductive JMode where
  | normal
  | esc
  | hex (k : Nat) (acc : Nat)

/-- JSON string body parser (called after the opening quote): returns the
unescaped content and the input after the closing quote; fails on raw
control characters, bad escapes and unterminated strings, as `JSON.parse`
does.  (JSON.parse would accept lone-surrogate `\u` escapes, which no
`Char` can hold; `generateToken` never emits them.) -/
def parseJStringAux : JMode → List Char → Option (List Char × List Char)
  | _, [] => none
  | .normal, c :: rest =>
    if c = '"' then some ([], rest)
    else if c = '\\' then parseJStringAux .esc rest
    else if c.toNat < 0x20 then none
    else Option.map (fun p => (c :: p.1, p.2)) (parseJStringAux .normal rest)
  | .esc, e :: rest =>
    if e = 'u' then parseJStringAux (.hex 4 0) rest
    else
      match unescapeChar e with
      | some u => Option.map (fun p => (u :: p.1, p.2)) (parseJStringAux .normal rest)
      | none => none
  | .hex k acc, c :: rest =>
    match hexVal c with
    | some v =>
      if k = 1 then
        if validScalar (acc * 16 + v) then
          Option.map (fun p => (Char.ofNat (acc * 16 + v) :: p.1, p.2))
            (parseJStringAux .normal rest)
        else none
      else parseJStringAux (.hex (k - 1) (acc * 16 + v)) rest
    | none => none

def parseJString (s : List Char) : Option (List Char × List Char) :=
  parseJStringAux .normal s

/-- Value of big-endian decimal digits, computed over the reversal. -/
def digitsValLE : List Nat → Nat
  | [] => 0
  | d :: ds => d + 10 * digitsValLE ds

/-- `JSON.parse` specialized to the payload shape `stringify` emits:
`{"userId":<string>,"exp":<digits>}`; any other input fails (models the
`catch` returning null). -/
def jsonParsePayload (s : List Char) : Option TokenPayload :=
  match stripPrefixChars userIdKeyLit s with
  | none => none
  | some r1 =>
    match parseJString r1 with
    | none => none
    | some (uid, r2) =>
      match stripPrefixChars expKeyLit r2 with
      | none => none
      | some r3 =>
        let ds := r3.takeWhile (fun c => c.isDigit)
        if ds.isEmpty then none
        else
          match r3.drop ds.length with
          | ['}'] =>
            some { userId := String.mk uid,
                   exp := digitsValLE ((ds.map (fun c => c.toNat - 48)).reverse) }
          | _ => none

/-- The 7-day token lifetime in milliseconds (`7 * 24 * 60 * 60 * 1000`). -/
def sevenDaysMs : Nat := 7 * 24 * 60 * 60 * 1000

/-- `generateToken(userId)` at current time `now`:
`Buffer.from(JSON.stringify({userId, exp: Date.now() + 7*24*60*60*1000})).toString('base64')`. -/
def generateToken (userId : String) (now : Nat) : List Char :=
  b64Encode (utf8Encode (jsonStringifyPayload { userId := userId, exp := now + sevenDaysMs }))

/-- The decode half of `parseToken` before the expiry check. -/
def decodeTokenPayload (token : List Char) : Option TokenPayload :=
  match utf8Decode (b64Decode token) with
  | none => none
  | some cs => jsonParsePayload cs

/-- `parseToken(token)` at current time `now`: decode, then return null
when `payload.exp < Date.now()`; any decode failure is caught and yields
null rather than an exception (modelled by the `Option`). -/
def parseToken (token : List Char) (now : Nat) : Option TokenPayload :=
  match decodeTokenPayload token with
  | none => none
  | some p => if p.exp < now then none else some p


/-! ## Helper lemmas and claim theorems -/

theorem splitDD_ne_nil (s : List Char) : splitDD s ≠ [] := by
  induction s using splitDD.induct with
  | case1 => simp [splitDD]
  | case2 rest ih => simp [splitDD]
  | case3 c rest h hrest ih => exact absurd hrest ih
  | case4 c rest h s ss hrest ih =>
    rw [splitDD.eq_3 c rest h, hrest]
    simp

theorem noDD_cons_elim {c : Char} {rest : List Char}
    (h : ∀ r : List Char, c = '\n' → rest = '\n' :: r → False)
    (hn : noDD (c :: rest)) : noDD rest := by
  unfold noDD at hn ⊢
  rw [splitDD.eq_3 c rest h] at hn
  rcases hs : splitDD rest with _ | ⟨a, l⟩
  · exact absurd hs (splitDD_ne_nil _)
  · rw [hs] at hn
    simp only [List.cons.injEq] at hn
    rw [hn.1.2, hn.2]

theorem splitDD_shift (f : List Char) (hf : noDD f) (hn : f.getLast? ≠ some '\n')
    (r : List Char) : splitDD (f ++ '\n' :: '\n' :: r) = f :: splitDD r := by
  induction f using splitDD.induct with
  | case1 => simp [splitDD]
  | case2 rest ih =>
    exfalso
    unfold noDD at hf
    rw [splitDD.eq_2] at hf
    have := congrArg List.head? hf
    simp at this
  | case3 c rest h hrest ih => exact absurd hrest (splitDD_ne_nil _)
  | case4 c rest h s ss hrest ih =>
    have hrest' : noDD rest := noDD_cons_elim h hf
    rcases rest with _ | ⟨d, rest'⟩
    · -- f = [c]; its last character is c, hence c ≠ '\n'
      have hc : c ≠ '\n' := by
        intro hcn
        subst hcn
        simp at hn
      have h2 : ∀ r1 : List Char, c = '\n' → '\n' :: '\n' :: r = '\n' :: r1 → False := by
        intro r1 hcn _
        exact hc hcn
      simp only [List.nil_append, List.cons_append]
      rw [splitDD.eq_3 c _ h2, splitDD.eq_2]
    · -- f = c :: d :: rest'
      have hd : d ≠ '\n' ∨ c ≠ '\n' := by
        by_cases hcn : c = '\n'
        · left
          intro hdn
          exact h rest' hcn (by rw [hdn])
        · right; exact hcn
      have h2 : ∀ r1 : List Char, c = '\n' → (d :: rest') ++ '\n' :: '\n' :: r = '\n' :: r1 → False := by
        intro r1 hcn heq
        rcases hd with hd | hd
        · simp only [List.cons_append, List.cons.injEq] at heq
          exact hd heq.1
        · exact hd hcn
      have hn' : (d :: rest').getLast? ≠ some '\n' := by
        intro hlast
        apply hn
        rw [List.getLast?_cons_cons]
        exact hlast
      have ihr := ih hrest' hn'
      simp only [List.cons_append] at ihr ⊢
      have h2' : ∀ r1 : List Char, c = '\n' → d :: (rest' ++ '\n' :: '\n' :: r) = '\n' :: r1 → False := by
        intro r1 hcn heq
        exact h2 r1 hcn (by simpa using heq)
      rw [splitDD.eq_3 c (d :: (rest' ++ '\n' :: '\n' :: r)) h2', ihr]

theorem splitDD_encode (frames : List (List Char)) (hf : ∀ f ∈ frames, okFrame f)
    (r : List Char) : splitDD (encodeFrames frames ++ r) = frames ++ splitDD r := by
  induction frames with
  | nil => simp [encodeFrames]
  | cons f fs ih =>
    have hok := hf f (by simp)
    have hfs : ∀ g ∈ fs, okFrame g := fun g hg => hf g (by simp [hg])
    unfold encodeFrames at ih ⊢
    simp only [List.map_cons, List.flatten_cons, List.append_assoc]
    rw [show f ++ (dd ++ ((fs.map (fun f => f ++ dd)).flatten ++ r)) =
        f ++ '\n' :: '\n' :: ((fs.map (fun f => f ++ dd)).flatten ++ r) from rfl]
    rw [splitDD_shift f hok.1 hok.2, ih hfs]
    simp

theorem splitDD_decomp (s : List Char) :
    ∃ segs last, splitDD s = segs ++ [last] ∧ s = encodeFrames segs ++ last ∧
      (∀ f ∈ segs, okFrame f) ∧ noDD last := by
  induction s using splitDD.induct with
  | case1 =>
    exact ⟨[], [], by simp [splitDD], by simp [encodeFrames], by simp, rfl⟩
  | case2 rest ih =>
    obtain ⟨segs, last, h1, h2, h3, h4⟩ := ih
    refine ⟨[] :: segs, last, ?_, ?_, ?_, h4⟩
    · rw [splitDD.eq_2, h1]
      simp
    · rw [show ('\n' :: '\n' :: rest : List Char) = dd ++ rest by rfl, h2]
      simp [encodeFrames]
    · intro f hfmem
      rcases List.mem_cons.mp hfmem with rfl | hfmem
      · exact ⟨rfl, by simp⟩
      · exact h3 f hfmem
  | case3 c rest h hrest ih => exact absurd hrest (splitDD_ne_nil _)
  | case4 c rest h s0 ss hrest ih =>
    obtain ⟨segs, last, h1, h2, h3, h4⟩ := ih
    rcases segs with _ | ⟨g, gs⟩
    · -- no complete segment in rest: rest = last
      have hlast : rest = last := by
        rw [h2]; simp [encodeFrames]
      refine ⟨[], c :: last, ?_, ?_, by simp, ?_⟩
      · rw [splitDD.eq_3 c rest h, h1]
        simp [hlast]
      · simp [encodeFrames, hlast]
      · unfold noDD
        rw [show (c :: last : List Char) = c :: rest by rw [hlast]]
        rw [splitDD.eq_3 c rest h, h1, ← hlast]
        simp
    · -- rest = g ++ dd ++ ..., first segment g is extended with c
      have hrest2 : rest = g ++ '\n' :: '\n' :: (encodeFrames gs ++ last) := by
        rw [h2]
        simp [encodeFrames, dd]
      have hokg : okFrame g := h3 g (by simp)
      have hcg : ∀ r1 : List Char, c = '\n' → g = '\n' :: r1 → False := by
        intro r1 hcn hgn
        apply h (r1 ++ '\n' :: '\n' :: (encodeFrames gs ++ last)) hcn
        rw [hrest2, hgn]
        rfl
      have hnodd : noDD (c :: g) := by
        unfold noDD
        rw [splitDD.eq_3 c g hcg, hokg.1]
      have hlastg : (c :: g).getLast? ≠ some '\n' := by
        rcases g with _ | ⟨d, g'⟩
        · -- g = []: then rest starts with the delimiter, so c ≠ '\n'
          intro hlast
          simp at hlast
          apply h ('\n' :: (encodeFrames gs ++ last)) hlast
          rw [hrest2]
          rfl
        · intro hlast
          rw [List.getLast?_cons_cons] at hlast
          exact hokg.2 hlast
      refine ⟨(c :: g) :: gs, last, ?_, ?_, ?_, h4⟩
      · rw [splitDD.eq_3 c rest h, h1]
        simp
      · rw [show (c :: rest : List Char) = c :: rest from rfl, hrest2]
        simp [encodeFrames, dd]
      · intro f hfmem
        rcases List.mem_cons.mp hfmem with rfl | hfmem
        · exact ⟨hnodd, hlastg⟩
        · exact h3 f (by simp [hfmem])

theorem splitDD_append (s t : List Char) :
    splitDD (s ++ t) =
      (splitDD s).dropLast ++ splitDD ((splitDD s).getLastD [] ++ t) := by
  obtain ⟨segs, last, h1, h2, h3, _⟩ := splitDD_decomp s
  rw [h1, h2]
  rw [List.dropLast_concat, List.getLastD_concat]
  rw [List.append_assoc]
  exact splitDD_encode segs h3 (last ++ t)

theorem dropLast_append_ne_nil {α : Type} (l1 l2 : List α) (h : l2 ≠ []) :
    (l1 ++ l2).dropLast = l1 ++ l2.dropLast := by
  rcases l2 with _ | ⟨b, l2⟩
  · exact absurd rfl h
  · exact List.dropLast_append_cons

theorem getLastD_append_ne_nil {α : Type} (l1 l2 : List α) (d : α) (h : l2 ≠ []) :
    (l1 ++ l2).getLastD d = l2.getLastD d := by
  rw [List.getLastD_eq_getLast?, List.getLastD_eq_getLast?, List.getLast?_append]
  rcases hg : l2.getLast? with _ | a
  · rcases l2 with _ | ⟨b, l2⟩
    · exact absurd rfl h
    · rw [List.getLast?_eq_getLast _ (by simp)] at hg
      exact absurd hg (by simp)
  · simp [Option.or]

theorem runDecoder_fold (chunks : List (List Char)) :
    ∀ emitted buf, noDD buf →
      chunks.foldl stepChunk (emitted, buf) =
        (emitted ++ (splitDD (buf ++ chunks.flatten)).dropLast,
         (splitDD (buf ++ chunks.flatten)).getLastD []) := by
  induction chunks with
  | nil =>
    intro emitted buf hbuf
    simp only [List.foldl_nil, List.flatten_nil, List.append_nil]
    rw [hbuf]
    simp
  | cons c cs ih =>
    intro emitted buf hbuf
    simp only [List.foldl_cons]
    obtain ⟨segs, last, h1, h2, h3, h4⟩ := splitDD_decomp (buf ++ c)
    have hstep : stepChunk (emitted, buf) c =
        (emitted ++ (splitDD (buf ++ c)).dropLast, (splitDD (buf ++ c)).getLastD []) := rfl
    rw [hstep, ih _ _ (by rw [h1, List.getLastD_concat]; exact h4)]
    have hjoin : buf ++ (c :: cs).flatten = (buf ++ c) ++ cs.flatten := by
      simp
    rw [hjoin, splitDD_append (buf ++ c) cs.flatten]
    rw [h1, List.dropLast_concat, List.getLastD_concat]
    rw [dropLast_append_ne_nil _ _ (splitDD_ne_nil _),
        getLastD_append_ne_nil _ _ _ (splitDD_ne_nil _), List.append_assoc]


/-- Claim C1, counterexample to the claim as stated: the single chunk
"a(NL)(NL)(NL)x" is the concatenation of the complete frame "a(NL)"
terminated by the double-newline delimiter plus the trailing partial
fragment "x", yet the loop does not emit the frame "a(NL)" and does not
retain "x": greedy splitting takes the delimiter one position earlier,
emitting "a" and retaining "(NL)x". -/
theorem c1_counterexample :
    [['a', '\n', '\n', '\n', 'x']].flatten = encodeFrames [['a', '\n']] ++ ['x'] ∧
    runDecoder [['a', '\n', '\n', '\n', 'x']] ≠ ([['a', '\n']], ['x']) := by
  decide

/-- Claim C1 (amended): for every sequence of incoming text chunks whose
concatenation consists of N complete frames each terminated by the
double-newline delimiter plus one trailing partial fragment — where no
frame contains the delimiter or ends with a newline character, and the
fragment contains no delimiter — the stream-read loop emits exactly the N
frames, in arrival order, regardless of how the concatenation is
partitioned into chunks, and after consuming all chunks the retained
buffer equals exactly the trailing partial fragment (which, at stream end,
is discarded: only the emitted-frames component is ever processed). -/
theorem c1_frame_decoder_split_invariance (chunks frames : List (List Char))
    (frag : List Char) (hcat : chunks.flatten = encodeFrames frames ++ frag)
    (hframes : ∀ f ∈ frames, okFrame f) (hfrag : noDD frag) :
    runDecoder chunks = (frames, frag) := by
  unfold runDecoder
  rw [runDecoder_fold chunks [] [] rfl]
  simp only [List.nil_append]
  rw [hcat, splitDD_encode frames hframes frag, hfrag]
  rw [List.dropLast_concat, List.getLastD_concat]

/-- Claim C1 witness: a frame split across two chunks mid-frame and
mid-delimiter is still decoded into exactly the two complete frames with
the partial fragment retained. -/
theorem c1_witness :
    runDecoder [['a', '\n'], ['\n', 'x', '\n', '\n', 'y']] = ([['a'], ['x']], ['y']) :=
  c1_frame_decoder_split_invariance [['a', '\n'], ['\n', 'x', '\n', '\n', 'y']]
    [['a'], ['x']] ['y'] (by decide) (by decide) (by decide)

theorem runPoller_superseded (myId convId : String) (n : Nat) (store : Store)
    (results : List PollResult) (h : store.pollingId ≠ some myId) :
    (runPoller myId convId n store results).1 = store ∧
    (runPoller myId convId n store results).2.1 = n ∧
    ∀ a ∈ (runPoller myId convId n store results).2.2, a = PollAction.logInfo := by
  cases results with
  | nil => simp [runPoller]
  | cons r rest =>
    have ht : pollTick myId convId n store r = ⟨.superseded, n, store, [.logInfo]⟩ := by
      unfold pollTick
      rw [if_pos h]
    simp [runPoller, ht]

/-- Claim C2: starting polling session B (fresh id recorded as the current
one in sessionStorage) while session A is in flight guarantees that A
performs no further state mutation: on A's next tick the stored polling id
differs from A's, so A returns as a no-op — the store is untouched, the
attempt counter is untouched, and the only action is an informational log
(no error is surfaced, no delay is scheduled, nothing is replayed). -/
theorem c2_auth_polling_fencing (idA idB convId : String) (store : Store)
    (n : Nat) (results : List PollResult) (hne : idA ≠ idB) :
    (runPoller idA convId n (startTokenPolling (some convId) idB store).1 results).1 =
      (startTokenPolling (some convId) idB store).1 ∧
    (runPoller idA convId n (startTokenPolling (some convId) idB store).1 results).2.1 = n ∧
    ∀ a ∈ (runPoller idA convId n (startTokenPolling (some convId) idB store).1 results).2.2,
      a = PollAction.logInfo := by
  apply runPoller_superseded
  simp only [startTokenPolling]
  simp only [ne_eq, Option.some.injEq]
  exact fun heq => hne heq.symm

/-- Claim C2 witness: concrete run of a superseded session. -/
theorem c2_witness :
    (runPoller "pollA" "conv" 0
        (startTokenPolling (some "conv") "pollB" ⟨some "conv", none, some "pollA"⟩).1
        [PollResult.netError]).1 =
      (startTokenPolling (some "conv") "pollB" ⟨some "conv", none, some "pollA"⟩).1 ∧
    (runPoller "pollA" "conv" 0
        (startTokenPolling (some "conv") "pollB" ⟨some "conv", none, some "pollA"⟩).1
        [PollResult.netError]).2.1 = 0 ∧
    ∀ a ∈ (runPoller "pollA" "conv" 0
        (startTokenPolling (some "conv") "pollB" ⟨some "conv", none, some "pollA"⟩).1
        [PollResult.netError]).2.2, a = PollAction.logInfo :=
  c2_auth_polling_fencing "pollA" "pollB" "conv" ⟨some "conv", none, some "pollA"⟩ 0
    [PollResult.netError] (by decide)

theorem runPoller_cons_waiting (myId convId : String) (k : Nat) (store : Store)
    (r : PollResult) (rest : List PollResult)
    (h : (pollTick myId convId k store r).outcome = TickOutcome.waiting) :
    runPoller myId convId k store (r :: rest) =
      ((runPoller myId convId (pollTick myId convId k store r).attempts
          (pollTick myId convId k store r).store rest).1,
       (runPoller myId convId (pollTick myId convId k store r).attempts
          (pollTick myId convId k store r).store rest).2.1,
       (pollTick myId convId k store r).actions ++
         (runPoller myId convId (pollTick myId convId k store r).attempts
            (pollTick myId convId k store r).store rest).2.2) := by
  rw [runPoller]
  rw [h]

theorem runPoller_cons_stop (myId convId : String) (k : Nat) (store : Store)
    (r : PollResult) (rest : List PollResult)
    (h : (pollTick myId convId k store r).outcome ≠ TickOutcome.waiting) :
    runPoller myId convId k store (r :: rest) =
      ((pollTick myId convId k store r).store,
       (pollTick myId convId k store r).attempts,
       (pollTick myId convId k store r).actions) := by
  rw [runPoller]
  rcases ho : (pollTick myId convId k store r).outcome <;> simp_all

theorem pollTick_waiting (myId convId : String) (k : Nat) (store : Store)
    (r : PollResult) (hna : notAuthorizing r) (hpid : store.pollingId = some myId)
    (hk : k < maxAttempts) :
    ∃ acts, pollTick myId convId k store r = ⟨.waiting, k + 1, store, acts⟩ ∧
      streamCalls acts = [] ∧ scheduledDelays acts = [10000] ∧
      ∀ a ∈ acts, isLogOnly a ∨ ∃ ms, a = PollAction.schedule ms := by
  cases r with
  | netError =>
    refine ⟨[.logError, .schedule 10000], ?_, by simp [streamCalls],
      by simp [scheduledDelays], by simp [isLogOnly]⟩
    unfold pollTick
    rw [if_neg (by simp [hpid]), if_neg (by omega)]
  | ok status =>
    have hs : status ≠ "authorized" := hna
    refine ⟨[.logInfo, .schedule 10000], ?_, by simp [streamCalls],
      by simp [scheduledDelays], by simp [isLogOnly]⟩
    unfold pollTick
    rw [if_neg (by simp [hpid]), if_neg (by omega)]
    simp [hs]

theorem runPoller_auth_replay (myId convId msg : String) (rs1 : List PollResult)
    (rs2 : List PollResult) :
    ∀ (k : Nat) (store : Store), (∀ r ∈ rs1, notAuthorizing r) →
      k + rs1.length < maxAttempts →
      store.pollingId = some myId → store.lastMessage = some msg →
      ∃ acts,
        runPoller myId convId k store (rs1 ++ PollResult.ok "authorized" :: rs2) =
          ({ store with lastMessage := none, pollingId := none },
           k + rs1.length + 1, acts) ∧
        streamCalls acts = [(msg, convId)] := by
  induction rs1 with
  | nil =>
    intro k store hna hlen hpid hmsg
    simp only [List.length_nil, Nat.add_zero] at hlen
    have ht : pollTick myId convId k store (.ok "authorized") =
        ⟨.resumed, k + 1, { store with lastMessage := none, pollingId := none },
         [.logInfo, .addMessage authSuccessText "assistant",
          .streamResponse msg convId, .showTyping]⟩ := by
      unfold pollTick
      rw [if_neg (by simp [hpid]), if_neg (by omega)]
      simp [hmsg]
    refine ⟨[.logInfo, .addMessage authSuccessText "assistant",
      .streamResponse msg convId, .showTyping], ?_, ?_⟩
    · simp only [List.nil_append]
      rw [runPoller_cons_stop myId convId k store _ rs2 (by rw [ht]; simp)]
      rw [ht]
      simp
    · simp [streamCalls]
  | cons r rs1 ih =>
    intro k store hna hlen hpid hmsg
    simp only [List.length_cons] at hlen
    obtain ⟨tacts, ht, hts, _, _⟩ :=
      pollTick_waiting myId convId k store r (hna r (by simp)) hpid (by omega)
    obtain ⟨acts, hrun, hcalls⟩ := ih (k + 1) store
      (fun x hx => hna x (by simp [hx])) (by omega) hpid hmsg
    refine ⟨tacts ++ acts, ?_, ?_⟩
    · simp only [List.cons_append]
      rw [runPoller_cons_waiting myId convId k store r _ (by rw [ht])]
      rw [ht]
      simp only [hrun, List.length_cons]
      refine Prod.ext rfl (Prod.ext ?_ rfl)
      simp only []
      omega
    · unfold streamCalls at hts hcalls ⊢
      rw [List.filterMap_append, hts, hcalls, List.nil_append]

/-- Claim C3: in a polling run where the status endpoint answers
`authorized` on some poll (after fewer than 30 non-authorizing polls) and
a pending replay message exists, the poller clears the pending-replay slot
and the polling-session slot, re-invokes `API.streamResponse` with that
text on the same conversation id exactly once, and any subsequent poll
tick on the resulting store is a superseded no-op that replays nothing. -/
theorem c3_replay_exactly_once (myId convId msg : String) (store : Store)
    (rs1 rs2 : List PollResult) (hna : ∀ r ∈ rs1, notAuthorizing r)
    (hlen : rs1.length < maxAttempts) (hpid : store.pollingId = some myId)
    (hmsg : store.lastMessage = some msg) :
    (∃ acts,
      runPoller myId convId 0 store (rs1 ++ PollResult.ok "authorized" :: rs2) =
        ({ store with lastMessage := none, pollingId := none },
         rs1.length + 1, acts) ∧
      streamCalls acts = [(msg, convId)]) ∧
    ∀ (n : Nat) (r : PollResult) (rest : List PollResult),
      runPoller myId convId n
          { store with lastMessage := none, pollingId := none } (r :: rest) =
        ({ store with lastMessage := none, pollingId := none }, n,
         [PollAction.logInfo]) := by
  constructor
  · have h := runPoller_auth_replay myId convId msg rs1 rs2 0 store hna
      (by omega) hpid hmsg
    simpa using h
  · intro n r rest
    have hsup : ({ store with lastMessage := none, pollingId := none } : Store).pollingId
        ≠ some myId := by simp
    rw [runPoller_cons_stop myId convId n _ r rest
      (by unfold pollTick; rw [if_pos hsup]; simp)]
    unfold pollTick
    rw [if_pos hsup]

/-- Claim C3 witness: authorized on the third poll after two failed or
pending polls; the pending message "hello" is replayed exactly once. -/
theorem c3_witness :
    (∃ acts,
      runPoller "p1" "conv" 0 ⟨some "conv", some "hello", some "p1"⟩
          ([PollResult.ok "pending", PollResult.netError] ++
            PollResult.ok "authorized" :: [PollResult.ok "authorized"]) =
        (⟨some "conv", none, none⟩, 3, acts) ∧
      streamCalls acts = [("hello", "conv")]) ∧
    ∀ (n : Nat) (r : PollResult) (rest : List PollResult),
      runPoller "p1" "conv" n ⟨some "conv", none, none⟩ (r :: rest) =
        (⟨some "conv", none, none⟩, n, [PollAction.logInfo]) :=
  c3_replay_exactly_once "p1" "conv" "hello" ⟨some "conv", some "hello", some "p1"⟩
    [PollResult.ok "pending", PollResult.netError] [PollResult.ok "authorized"]
    (by decide) (by decide) rfl rfl

theorem runPoller_exhaust (myId convId : String) (results : List PollResult) :
    ∀ (k : Nat) (store : Store), (∀ r ∈ results, notAuthorizing r) →
      k ≤ maxAttempts → maxAttempts - k ≤ results.length →
      store.pollingId = some myId →
      (runPoller myId convId k store results).1 = store ∧
      (runPoller myId convId k store results).2.1 = maxAttempts ∧
      scheduledDelays (runPoller myId convId k store results).2.2 =
        List.replicate (maxAttempts - k) 10000 ∧
      streamCalls (runPoller myId convId k store results).2.2 = [] := by
  induction results with
  | nil =>
    intro k store hna hk hlen hpid
    simp only [List.length_nil, Nat.le_zero] at hlen
    have hk30 : k = maxAttempts := by omega
    subst hk30
    simp [runPoller, scheduledDelays, streamCalls]
  | cons r rest ih =>
    intro k store hna hk hlen hpid
    by_cases hklt : k < maxAttempts
    · obtain ⟨tacts, ht, hts, htd, _⟩ :=
        pollTick_waiting myId convId k store r (hna r (by simp)) hpid hklt
      have := ih (k + 1) store (fun x hx => hna x (by simp [hx])) (by omega)
        (by simp only [List.length_cons] at hlen; omega) hpid
      rw [runPoller_cons_waiting myId convId k store r rest (by rw [ht])]
      rw [ht]
      simp only []
      refine ⟨this.1, this.2.1, ?_, ?_⟩
      · unfold scheduledDelays at htd this ⊢
        rw [List.filterMap_append, htd, this.2.2.1]
        rw [show maxAttempts - k = (maxAttempts - (k + 1)) + 1 by omega]
        simp [List.replicate_succ]
      · unfold streamCalls at hts this ⊢
        rw [List.filterMap_append, hts, this.2.2.2, List.nil_append]
    · have hke : k = maxAttempts := by omega
      subst hke
      have ht : pollTick myId convId maxAttempts store r =
          ⟨.exhausted, maxAttempts, store, [.logInfo]⟩ := by
        unfold pollTick
        rw [if_neg (by simp [hpid]), if_pos (by omega)]
      rw [runPoller_cons_stop myId convId maxAttempts store r rest (by rw [ht]; simp)]
      rw [ht]
      simp [scheduledDelays, streamCalls]

/-- Claim C4: when the status endpoint never answers `authorized` (network
failures included — they are logged, still counted, and do not abort), a
polling session started by `startTokenPolling` schedules its first tick
after 2000 ms, makes exactly `maxAttempts` (30) status-check attempts each
followed by a 10000 ms delay, then stops silently: the store is exactly as
the start call left it (no state mutation beyond logging) and
`API.streamResponse` is never invoked. -/
theorem c4_poller_bounded_termination (myId convId : String) (store : Store)
    (results : List PollResult) (hna : ∀ r ∈ results, notAuthorizing r)
    (hlen : maxAttempts ≤ results.length) :
    scheduledDelays (startTokenPolling (some convId) myId store).2 = [2000] ∧
    (runPoller myId convId 0 (startTokenPolling (some convId) myId store).1 results).1 =
      (startTokenPolling (some convId) myId store).1 ∧
    (runPoller myId convId 0 (startTokenPolling (some convId) myId store).1 results).2.1 =
      maxAttempts ∧
    scheduledDelays
      (runPoller myId convId 0 (startTokenPolling (some convId) myId store).1 results).2.2 =
      List.replicate maxAttempts 10000 ∧
    streamCalls
      (runPoller myId convId 0 (startTokenPolling (some convId) myId store).1 results).2.2 =
      [] := by
  have hpid : (startTokenPolling (some convId) myId store).1.pollingId = some myId := rfl
  have h := runPoller_exhaust myId convId results 0
    (startTokenPolling (some convId) myId store).1 hna (by omega) (by omega) hpid
  exact ⟨by simp [startTokenPolling, scheduledDelays], h.1, h.2.1,
    by simpa using h.2.2.1, h.2.2.2⟩

/-- Claim C4 witness: thirty network failures exhaust the poller. -/
theorem c4_witness :
    scheduledDelays (startTokenPolling (some "conv") "p1" ⟨some "conv", none, none⟩).2 =
      [2000] ∧
    (runPoller "p1" "conv" 0
        (startTokenPolling (some "conv") "p1" ⟨some "conv", none, none⟩).1
        (List.replicate 30 PollResult.netError)).1 =
      (startTokenPolling (some "conv") "p1" ⟨some "conv", none, none⟩).1 ∧
    (runPoller "p1" "conv" 0
        (startTokenPolling (some "conv") "p1" ⟨some "conv", none, none⟩).1
        (List.replicate 30 PollResult.netError)).2.1 = maxAttempts ∧
    scheduledDelays
      (runPoller "p1" "conv" 0
          (startTokenPolling (some "conv") "p1" ⟨some "conv", none, none⟩).1
          (List.replicate 30 PollResult.netError)).2.2 =
      List.replicate maxAttempts 10000 ∧
    streamCalls
      (runPoller "p1" "conv" 0
          (startTokenPolling (some "conv") "p1" ⟨some "conv", none, none⟩).1
          (List.replicate 30 PollResult.netError)).2.2 = [] :=
  c4_poller_bounded_termination "p1" "conv" ⟨some "conv", none, none⟩
    (List.replicate 30 PollResult.netError) (by decide) (by decide)

theorem runSteps_acc {s e i : Type} (step : s → i → s × List e) (items : List i) :
    ∀ (st : s) (effs : List e),
      items.foldl (fun acc it =>
        ((step acc.1 it).1, acc.2 ++ (step acc.1 it).2)) (st, effs) =
      ((runSteps step items st).1, effs ++ (runSteps step items st).2) := by
  induction items with
  | nil => intro st effs; simp [runSteps]
  | cons it items ih =>
    intro st effs
    simp only [runSteps, List.foldl_cons, List.nil_append] at ih ⊢
    rw [ih ((step st it).1) (effs ++ (step st it).2),
        ih ((step st it).1) ((step st it).2)]
    simp [List.append_assoc]

theorem runSteps_cons {s e i : Type} (step : s → i → s × List e) (it : i)
    (items : List i) (st : s) :
    runSteps step (it :: items) st =
      ((runSteps step items (step st it).1).1,
       (step st it).2 ++ (runSteps step items (step st it).1).2) := by
  simp only [runSteps, List.foldl_cons]
  rw [runSteps_acc]
  simp [runSteps]

theorem runSteps_append {s e i : Type} (step : s → i → s × List e)
    (l1 l2 : List i) (st : s) :
    runSteps step (l1 ++ l2) st =
      ((runSteps step l2 (runSteps step l1 st).1).1,
       (runSteps step l1 st).2 ++ (runSteps step l2 (runSteps step l1 st).1).2) := by
  simp only [runSteps, List.foldl_append]
  rw [show (List.foldl _ (st, ([] : List e)) l1) =
      ((runSteps step l1 st).1, (runSteps step l1 st).2) from rfl]
  rw [runSteps_acc]
  simp [runSteps]

theorem updateAt_length {a : Type} (i : Nat) (f : a → a) (l : List a) :
    (updateAt i f l).length = l.length := by
  induction l generalizing i with
  | nil => simp [updateAt]
  | cons x xs ih =>
    cases i with
    | zero => simp [updateAt]
    | succ j => simp [updateAt, ih]

theorem updateAt_getElem?_self {a : Type} (i : Nat) (f : a → a) (l : List a) :
    (updateAt i f l)[i]? = l[i]?.map f := by
  induction l generalizing i with
  | nil => simp [updateAt]
  | cons x xs ih =>
    cases i with
    | zero => simp [updateAt]
    | succ j => simpa [updateAt] using ih j

theorem filter_beq_range (n k : Nat) :
    (List.range n).filter (fun i => i == k) = if k < n then [k] else [] := by
  induction n with
  | zero => simp
  | succ n ih =>
    rw [List.range_succ, List.filter_append, ih]
    by_cases h : k < n
    · rw [if_pos h, if_pos (by omega)]
      have hne : (n == k) = false := by
        simp only [beq_eq_false_iff_ne, ne_eq]
        omega
      simp [hne]
    · by_cases h2 : k = n
      · subst h2
        rw [if_neg h, if_pos (by omega)]
        simp
      · rw [if_neg h, if_neg (by omega)]
        have hne : (n == k) = false := by
          simp only [beq_eq_false_iff_ne, ne_eq]
          omega
        simp [hne]

theorem activeCount_eq_one_iff (s : ChatState) :
    activeCount s = 1 ↔ s.currentIdx < s.elems.length := by
  unfold activeCount
  rw [filter_beq_range]
  by_cases h : s.currentIdx < s.elems.length
  · simp [h]
  · simp [h]

/-- Claim C5: exactly one MessageFrame is active at stream start, and the
`new_message` transition — a single synchronous function application, so no
intermediate state is observable — keeps exactly one active frame: the
previously active element is finalized (markdown-rendered), a fresh empty
element becomes the new active one at a fresh position, and a subsequent
`chunk` event appends to the new frame. -/
theorem c5_new_message_active_frame :
    (∀ store : Store, activeCount (startStream store) = 1) ∧
    (∀ (s : ChatState) (u : String), activeCount s = 1 →
      activeCount (handleStreamEvent StreamEvent.newMessage u s).1 = 1 ∧
      (handleStreamEvent StreamEvent.newMessage u s).1.elems[s.currentIdx]? =
        s.elems[s.currentIdx]?.map
          (fun el => { el with display := Display.renderedMarkdown }) ∧
      (handleStreamEvent StreamEvent.newMessage u s).1.currentIdx ≠ s.currentIdx ∧
      ((handleStreamEvent StreamEvent.newMessage u s).1.elems[(handleStreamEvent StreamEvent.newMessage u s).1.currentIdx]? = some { rawText := "", display := Display.raw }) ∧
      ∀ t : String,
        (handleStreamEvent (StreamEvent.chunk t) u (handleStreamEvent StreamEvent.newMessage u s).1).1.elems[(handleStreamEvent StreamEvent.newMessage u s).1.currentIdx]? = some { rawText := t, display := Display.raw }) := by
  constructor
  · intro store
    rw [activeCount_eq_one_iff]
    simp [startStream]
  · intro s u hactive
    rw [activeCount_eq_one_iff] at hactive
    have hlen : (updateAt s.currentIdx
        (fun e => { e with display := Display.renderedMarkdown }) s.elems).length =
        s.elems.length := updateAt_length _ _ _
    refine ⟨?_, ?_, ?_, ?_, ?_⟩
    · rw [activeCount_eq_one_iff]
      simp [handleStreamEvent, hlen]
    · simp only [handleStreamEvent]
      rw [List.getElem?_append, if_pos (by omega)]
      exact updateAt_getElem?_self _ _ _
    · simp only [handleStreamEvent]
      omega
    · simp only [handleStreamEvent]
      rw [show s.elems.length = (updateAt s.currentIdx
          (fun e => { e with display := Display.renderedMarkdown }) s.elems).length
        from hlen.symm]
      exact List.getElem?_concat_length _ _
    · intro t
      simp only [handleStreamEvent]
      rw [updateAt_getElem?_self]
      rw [show s.elems.length = (updateAt s.currentIdx
          (fun e => { e with display := Display.renderedMarkdown }) s.elems).length
        from hlen.symm]
      rw [List.getElem?_concat_length]
      simp

/-- Claim C5 witness at the initial one-element state. -/
theorem c5_witness :
    activeCount (handleStreamEvent StreamEvent.newMessage "hi"
      (startStream ⟨none, none, none⟩)).1 = 1 ∧
    (handleStreamEvent StreamEvent.newMessage "hi"
      (startStream ⟨none, none, none⟩)).1.elems[(0 : Nat)]? =
      (startStream ⟨none, none, none⟩).elems[(0 : Nat)]?.map
        (fun el => { el with display := Display.renderedMarkdown }) := by
  have h := (c5_new_message_active_frame.2 (startStream ⟨none, none, none⟩) "hi"
    (c5_new_message_active_frame.1 ⟨none, none, none⟩))
  exact ⟨h.1, h.2.1⟩

/-- Claim C6: a complete `data: `-prefixed frame whose payload fails the
structured decode is logged (`console.error`) and dropped: the state is as
if the frame were absent, processing of all subsequent frames continues
from the same state, and the surrounding frames' effects appear unchanged
and in order around the single log entry. -/
theorem c6_malformed_frame_tolerance (decode : String → Option StreamEvent)
    (u : String) (st : ChatState) (fs1 fs2 : List String) (bad : String)
    (hpre : startsWithData bad = true)
    (hdec : decode (String.mk (bad.toList.drop 6)) = none) :
    (processFrames decode u (fs1 ++ bad :: fs2) st).1 =
      (processFrames decode u (fs1 ++ fs2) st).1 ∧
    (processFrames decode u (fs1 ++ bad :: fs2) st).2 =
      (processFrames decode u fs1 st).2 ++ Effect.logError ::
        (processFrames decode u fs2 (processFrames decode u fs1 st).1).2 := by
  have hbad : ∀ s : ChatState, processFrame decode u s bad = (s, [.logError]) := by
    intro s
    unfold processFrame
    rw [if_pos hpre, hdec]
  unfold processFrames
  rw [runSteps_append _ fs1 (bad :: fs2) st, runSteps_append _ fs1 fs2 st,
    runSteps_cons, hbad]
  exact ⟨rfl, by simp⟩

/-- Claim C6 witness: with a decoder rejecting everything, a malformed
middle frame only inserts one log entry between its neighbours' logs. -/
theorem c6_witness :
    (processFrames (fun _ => none) "u" (["data: a"] ++ "data: b" :: ["data: c"])
        (startStream ⟨none, none, none⟩)).1 =
      (processFrames (fun _ => none) "u" (["data: a"] ++ ["data: c"])
        (startStream ⟨none, none, none⟩)).1 ∧
    (processFrames (fun _ => none) "u" (["data: a"] ++ "data: b" :: ["data: c"])
        (startStream ⟨none, none, none⟩)).2 =
      (processFrames (fun _ => none) "u" ["data: a"]
        (startStream ⟨none, none, none⟩)).2 ++ Effect.logError ::
        (processFrames (fun _ => none) "u" ["data: c"]
          (processFrames (fun _ => none) "u" ["data: a"]
            (startStream ⟨none, none, none⟩)).1).2 :=
  c6_malformed_frame_tolerance (fun _ => none) "u" (startStream ⟨none, none, none⟩)
    ["data: a"] ["data: c"] "data: b" (by decide) rfl

/-- Claim C7: an `auth_required` event persists the triggering user text
as the single pending-replay slot (and nothing else: no other state
change, no UI effect), a second `auth_required` overwrites the slot, the
stream around the event is processed exactly as before with the slot set
(the dispatcher neither stops nor reorders), and the hand-off
(`openAuthPopup`, reached from the rendered auth link) starts the resume
poller: it records a fresh polling id and schedules the first poll. -/
theorem c7_auth_required_pending_replay :
    (∀ (u : String) (s : ChatState),
      handleStreamEvent StreamEvent.authRequired u s =
        ({ s with store := { s.store with lastMessage := some u } }, [])) ∧
    (∀ (u1 u2 : String) (s : ChatState),
      (handleStreamEvent StreamEvent.authRequired u2
        (handleStreamEvent StreamEvent.authRequired u1 s).1).1.store.lastMessage =
        some u2) ∧
    (∀ (u : String) (evs1 evs2 : List StreamEvent) (s : ChatState),
      processEvents u (evs1 ++ StreamEvent.authRequired :: evs2) s =
        ((processEvents u evs2
            { (processEvents u evs1 s).1 with
              store := { (processEvents u evs1 s).1.store with
                lastMessage := some u } }).1,
         (processEvents u evs1 s).2 ++
           (processEvents u evs2
             { (processEvents u evs1 s).1 with
               store := { (processEvents u evs1 s).1.store with
                 lastMessage := some u } }).2)) ∧
    (∀ (newId cid : String) (store : Store), store.conversationId = some cid →
      (openAuthPopup newId store).1.pollingId = some newId ∧
      PollAction.schedule 2000 ∈ (openAuthPopup newId store).2) := by
  refine ⟨fun u s => rfl, fun u1 u2 s => rfl, ?_, ?_⟩
  · intro u evs1 evs2 s
    unfold processEvents
    rw [runSteps_append _ evs1 (StreamEvent.authRequired :: evs2) s, runSteps_cons]
    rfl
  · intro newId cid store hcid
    unfold openAuthPopup
    rw [hcid]
    exact ⟨rfl, by simp [startTokenPolling]⟩

/-- Claim C7 witness: two auth_required events in one stream, then the
hand-off on a store with a conversation id. -/
theorem c7_witness :
    (handleStreamEvent StreamEvent.authRequired "second"
      (handleStreamEvent StreamEvent.authRequired "first"
        (startStream ⟨some "c", none, none⟩)).1).1.store.lastMessage =
      some "second" ∧
    (openAuthPopup "p9" ⟨some "c", some "second", none⟩).1.pollingId = some "p9" ∧
    PollAction.schedule 2000 ∈ (openAuthPopup "p9" ⟨some "c", some "second", none⟩).2 := by
  refine ⟨c7_auth_required_pending_replay.2.1 "first" "second" _, ?_, ?_⟩
  · exact (c7_auth_required_pending_replay.2.2.2 "p9" "c" ⟨some "c", some "second", none⟩ rfl).1
  · exact (c7_auth_required_pending_replay.2.2.2 "p9" "c" ⟨some "c", some "second", none⟩ rfl).2

theorem stripPrefix_self_append (p s : List Char) :
    stripPrefixChars p (p ++ s) = some s := by
  induction p with
  | nil => rfl
  | cons c p ih => simp [stripPrefixChars, ih]

theorem takeWhile_append_stop (p : Char → Bool) (xs : List Char) (y : Char)
    (ys : List Char) (hxs : ∀ x ∈ xs, p x = true) (hy : p y = false) :
    (xs ++ y :: ys).takeWhile p = xs := by
  induction xs with
  | nil => simp [List.takeWhile_cons, hy]
  | cons x xs ih =>
    have hx := hxs x (by simp)
    have ih2 := ih (fun z hz => hxs z (by simp [hz]))
    simp [List.takeWhile_cons, hx, ih2]

theorem takeWhile_all (p : Char → Bool) (xs : List Char)
    (hxs : ∀ x ∈ xs, p x = true) : xs.takeWhile p = xs := by
  induction xs with
  | nil => rfl
  | cons x xs ih =>
    have hx := hxs x (by simp)
    have ih2 := ih (fun z hz => hxs z (by simp [hz]))
    simp [List.takeWhile_cons, hx, ih2]

theorem matchToolAt_wellformed (n a : List Char)
    (hn : ∀ c ∈ n, isWordChar c = true) (hne : n ≠ [])
    (ha : ∀ c ∈ a, c ≠ '\n') (hae : a ≠ []) :
    matchToolAt (callingToolLit ++ (n ++ (withArgsLit ++ a))) = some (n, a) := by
  have hshape : n ++ (withArgsLit ++ a) =
      n ++ ' ' :: (['w', 'i', 't', 'h', ' ', 'a', 'r', 'g', 'u', 'm', 'e', 'n',
        't', 's', ':', ' '] ++ a) := by
    simp [withArgsLit]
  have htw : (n ++ (withArgsLit ++ a)).takeWhile isWordChar = n := by
    rw [hshape]
    exact takeWhile_append_stop isWordChar n ' ' _ hn (by decide)
  have hempty : n.isEmpty = false := by
    cases n
    · exact absurd rfl hne
    · rfl
  have haempty : a.isEmpty = false := by
    cases a
    · exact absurd rfl hae
    · rfl
  have hta : a.takeWhile (fun c => c != '\n') = a :=
    takeWhile_all _ a (fun c hc => by
      simp only [bne_iff_ne, ne_eq, decide_eq_true_eq]
      exact ha c hc)
  unfold matchToolAt
  rw [stripPrefix_self_append]
  simp only [htw, hempty, Bool.false_eq_true, if_false, List.drop_left,
    stripPrefix_self_append, hta, haempty]

theorem findToolMatch_calling (rest : List Char) (r : List Char × List Char)
    (h : matchToolAt (callingToolLit ++ rest) = some r) :
    findToolMatch (callingToolLit ++ rest) = some r := by
  have hc : (callingToolLit ++ rest : List Char) =
      'C' :: (['a', 'l', 'l', 'i', 'n', 'g', ' ', 't', 'o', 'o', 'l', ':', ' ']
        ++ rest) := rfl
  rw [hc] at h ⊢
  unfold findToolMatch
  rw [h]

/-- Claim C8: a `tool_use` event with a message is always forwarded to the
rendering collaborator (never dropped); `addToolUse` performs the single
pattern match `Calling tool: (w+) with arguments: (.+)`: a well-formed
message yields the structured (name, args) card, with the argument string
opportunistically JSON-formatted (and shown raw when that decode fails,
whatever `jsonPretty` does), and any message the pattern does not match is
rendered whole as plain text. -/
theorem c8_tool_use_parse :
    (∀ (u m : String) (s : ChatState),
      handleStreamEvent (StreamEvent.toolUse (some m)) u s =
        (s, [Effect.addToolUseMsg m])) ∧
    (∀ (jp : String → Option String) (n a : List Char),
      (∀ c ∈ n, isWordChar c = true) → n ≠ [] →
      (∀ c ∈ a, c ≠ '\n') → a ≠ [] →
      addToolUse jp (String.mk (callingToolLit ++ (n ++ (withArgsLit ++ a)))) =
        ToolDisplay.toolCard (String.mk n)
          ((jp (String.mk a)).getD (String.mk a))) ∧
    (∀ (jp : String → Option String) (msg : String),
      findToolMatch msg.toList = none →
      addToolUse jp msg = ToolDisplay.plainText msg) := by
  refine ⟨fun u m s => rfl, ?_, ?_⟩
  · intro jp n a hn hne ha hae
    have hf : findToolMatch (callingToolLit ++ (n ++ (withArgsLit ++ a))) =
        some (n, a) :=
      findToolMatch_calling _ _ (matchToolAt_wellformed n a hn hne ha hae)
    unfold addToolUse
    have htl : (String.mk (callingToolLit ++ (n ++ (withArgsLit ++ a)))).toList =
        callingToolLit ++ (n ++ (withArgsLit ++ a)) := rfl
    rw [htl, hf]
    cases hjp : jp (String.mk a) <;> simp [hjp]
  · intro jp msg h
    unfold addToolUse
    rw [h]

/-- Claim C8 witness: a well-formed tool message with non-JSON arguments,
and a message the pattern does not match. -/
theorem c8_witness :
    addToolUse (fun _ => none)
      (String.mk (callingToolLit ++ (['g', 'e', 't'] ++ (withArgsLit ++ ['x', '1'])))) =
      ToolDisplay.toolCard (String.mk ['g', 'e', 't'])
        (((fun _ => (none : Option String)) (String.mk ['x', '1'])).getD
          (String.mk ['x', '1'])) ∧
    addToolUse (fun _ => none) "no tool here" = ToolDisplay.plainText "no tool here" :=
  ⟨c8_tool_use_parse.2.1 (fun _ => none) ['g', 'e', 't'] ['x', '1']
      (by decide) (by decide) (by decide) (by decide),
   c8_tool_use_parse.2.2 (fun _ => none) "no tool here" (by decide)⟩

theorem pollTick_conversationId (myId convId : String) (k : Nat) (store : Store)
    (r : PollResult) :
    (pollTick myId convId k store r).store.conversationId = store.conversationId := by
  unfold pollTick
  split
  · rfl
  split
  · rfl
  cases r with
  | netError => rfl
  | ok status =>
    simp only []
    split
    · cases store.lastMessage <;> rfl
    · rfl

theorem runPoller_conversationId (myId convId : String) (results : List PollResult) :
    ∀ (k : Nat) (store : Store),
      (runPoller myId convId k store results).1.conversationId =
        store.conversationId := by
  induction results with
  | nil => intro k store; rfl
  | cons r rest ih =>
    intro k store
    by_cases h : (pollTick myId convId k store r).outcome = TickOutcome.waiting
    · rw [runPoller_cons_waiting myId convId k store r rest h]
      simp only []
      rw [ih]
      exact pollTick_conversationId myId convId k store r
    · rw [runPoller_cons_stop myId convId k store r rest h]
      exact pollTick_conversationId myId convId k store r

/-- Claim C9: a failed history fetch falls back to the welcome message and
discards the stored conversation id; and this is the only circumstance in
which the stored id is cleared: a successful fetch keeps it, every
dispatcher event either leaves it unchanged or sets it to a server-issued
id, and the poller (tick loop, start call, popup hand-off) never touches
it. -/
theorem c9_history_failure_recovery :
    (∀ (cd : String → Option (List ContentBlock)) (w : String) (store : Store),
      fetchChatHistory cd w HistoryResult.fetchError store =
        ({ store with conversationId := none },
         [Effect.addMessage w "assistant"])) ∧
    (∀ (cd : String → Option (List ContentBlock)) (w : String)
        (msgs : List StoredMessage) (store : Store),
      (fetchChatHistory cd w (HistoryResult.ok msgs) store).1 = store) ∧
    (∀ (ev : StreamEvent) (u : String) (s : ChatState),
      (handleStreamEvent ev u s).1.store.conversationId =
          s.store.conversationId ∨
        ∃ cid, (handleStreamEvent ev u s).1.store.conversationId = some cid) ∧
    (∀ (myId convId : String) (k : Nat) (store : Store)
        (results : List PollResult),
      (runPoller myId convId k store results).1.conversationId =
        store.conversationId) ∧
    (∀ (cid : Option String) (newId : String) (store : Store),
      (startTokenPolling cid newId store).1.conversationId =
        store.conversationId) ∧
    (∀ (newId : String) (store : Store),
      (openAuthPopup newId store).1.conversationId = store.conversationId) := by
  refine ⟨fun cd w store => rfl, ?_, ?_, ?_, ?_, ?_⟩
  · intro cd w msgs store
    unfold fetchChatHistory
    by_cases h : msgs.isEmpty <;> simp [h]
  · intro ev u s
    cases ev with
    | id cid =>
      cases cid with
      | some c => exact Or.inr ⟨c, rfl⟩
      | none => exact Or.inl rfl
    | chunk t => exact Or.inl rfl
    | messageComplete => exact Or.inl rfl
    | endTurn => exact Or.inl rfl
    | errorEvent m => exact Or.inl rfl
    | rateLimitExceeded m => exact Or.inl rfl
    | authRequired => exact Or.inl rfl
    | productResults ps => exact Or.inl rfl
    | toolUse m => cases m <;> exact Or.inl rfl
    | newMessage => exact Or.inl rfl
    | contentBlockComplete => exact Or.inl rfl
    | unknown => exact Or.inl rfl
  · intro myId convId k store results
    exact runPoller_conversationId myId convId results k store
  · intro cid newId store
    cases cid <;> rfl
  · intro newId store
    unfold openAuthPopup
    rcases h : store.conversationId with _ | cid <;> exact h

theorem char_toNat_lt (c : Char) : c.toNat < 0x110000 := by
  have hv : c.toNat < 0xd800 ∨ (0xdfff < c.toNat ∧ c.toNat < 0x110000) := c.valid
  omega

theorem contByte_true (b : Nat) (h1 : 0x80 ≤ b) (h2 : b < 0xC0) :
    contByte b = true := by
  simp only [contByte, Bool.and_eq_true, decide_eq_true_eq]
  omega

theorem utf8Decode_encodeChar (c : Char) (rest : List Nat) :
    utf8DecodeAux 0 0 (utf8EncodeChar c ++ rest) =
      Option.map (fun cs => c :: cs) (utf8DecodeAux 0 0 rest) := by
  have hub := char_toNat_lt c
  rcases Nat.lt_or_ge c.toNat 0x80 with h1 | h1
  · have he : utf8EncodeChar c = [c.toNat] := by
      unfold utf8EncodeChar
      rw [if_pos h1]
    rw [he, List.cons_append, List.nil_append]
    simp only [utf8DecodeAux]
    rw [if_pos h1, Char.ofNat_toNat]
  · rcases Nat.lt_or_ge c.toNat 0x800 with h2 | h2
    · have he : utf8EncodeChar c =
          [0xC0 + c.toNat / 0x40, 0x80 + c.toNat % 0x40] := by
        unfold utf8EncodeChar
        rw [if_neg (by omega), if_pos h2]
      rw [he]
      simp only [List.cons_append, List.nil_append]
      simp only [utf8DecodeAux]
      rw [if_neg (by omega), if_neg (by omega), if_pos (by omega)]
      rw [if_pos (contByte_true _ (by omega) (by omega))]
      rw [if_pos trivial]
      have hv : (0xC0 + c.toNat / 0x40 - 0xC0) * 0x40 +
          (0x80 + c.toNat % 0x40 - 0x80) = c.toNat := by omega
      rw [hv, Char.ofNat_toNat]
    · rcases Nat.lt_or_ge c.toNat 0x10000 with h3 | h3
      · have he : utf8EncodeChar c =
            [0xE0 + c.toNat / 0x1000, 0x80 + c.toNat / 0x40 % 0x40,
             0x80 + c.toNat % 0x40] := by
          unfold utf8EncodeChar
          rw [if_neg (by omega), if_neg (by omega), if_pos h3]
        rw [he]
        simp only [List.cons_append, List.nil_append]
        simp only [utf8DecodeAux]
        rw [if_neg (by omega), if_neg (by omega), if_neg (by omega),
          if_pos (by omega)]
        rw [if_pos (contByte_true _ (by omega) (by omega)), if_neg (by omega)]
        rw [if_pos (contByte_true _ (by omega) (by omega)), if_pos trivial]
        have hv : ((0xE0 + c.toNat / 0x1000 - 0xE0) * 0x40 +
            (0x80 + c.toNat / 0x40 % 0x40 - 0x80)) * 0x40 +
            (0x80 + c.toNat % 0x40 - 0x80) = c.toNat := by omega
        rw [hv, Char.ofNat_toNat]
      · have he : utf8EncodeChar c =
            [0xF0 + c.toNat / 0x40000, 0x80 + c.toNat / 0x1000 % 0x40,
             0x80 + c.toNat / 0x40 % 0x40, 0x80 + c.toNat % 0x40] := by
          unfold utf8EncodeChar
          rw [if_neg (by omega), if_neg (by omega), if_neg (by omega)]
        rw [he]
        simp only [List.cons_append, List.nil_append]
        simp only [utf8DecodeAux]
        rw [if_neg (by omega), if_neg (by omega), if_neg (by omega),
          if_neg (by omega), if_pos (by omega)]
        rw [if_pos (contByte_true _ (by omega) (by omega)), if_neg (by omega)]
        rw [if_pos (contByte_true _ (by omega) (by omega)), if_neg (by omega)]
        rw [if_pos (contByte_true _ (by omega) (by omega)), if_pos trivial]
        have hv : (((0xF0 + c.toNat / 0x40000 - 0xF0) * 0x40 +
            (0x80 + c.toNat / 0x1000 % 0x40 - 0x80)) * 0x40 +
            (0x80 + c.toNat / 0x40 % 0x40 - 0x80)) * 0x40 +
            (0x80 + c.toNat % 0x40 - 0x80) = c.toNat := by omega
        rw [hv, Char.ofNat_toNat]

theorem utf8_roundtrip (s : List Char) : utf8Decode (utf8Encode s) = some s := by
  unfold utf8Decode
  induction s with
  | nil => rfl
  | cons c cs ih =>
    have he : utf8Encode (c :: cs) = utf8EncodeChar c ++ utf8Encode cs := by
      simp [utf8Encode]
    rw [he, utf8Decode_encodeChar, ih]
    rfl

theorem utf8EncodeChar_lt256 (c : Char) : ∀ b ∈ utf8EncodeChar c, b < 256 := by
  have hub := char_toNat_lt c
  unfold utf8EncodeChar
  intro b hb
  rcases Nat.lt_or_ge c.toNat 0x80 with h1 | h1
  · rw [if_pos h1] at hb
    simp at hb
    omega
  · rcases Nat.lt_or_ge c.toNat 0x800 with h2 | h2
    · rw [if_neg (by omega), if_pos h2] at hb
      simp at hb
      rcases hb with rfl | rfl <;> omega
    · rcases Nat.lt_or_ge c.toNat 0x10000 with h3 | h3
      · rw [if_neg (by omega), if_neg (by omega), if_pos h3] at hb
        simp at hb
        rcases hb with rfl | rfl | rfl <;> omega
      · rw [if_neg (by omega), if_neg (by omega), if_neg (by omega)] at hb
        simp at hb
        rcases hb with rfl | rfl | rfl | rfl <;> omega

theorem utf8Encode_lt256 (s : List Char) : ∀ b ∈ utf8Encode s, b < 256 := by
  intro b hb
  unfold utf8Encode at hb
  rw [List.mem_flatten] at hb
  obtain ⟨l, hl, hbl⟩ := hb
  rw [List.mem_map] at hl
  obtain ⟨c, _, rfl⟩ := hl
  exact utf8EncodeChar_lt256 c b hbl

theorem b64_roundchar : ∀ v < 64, b64DecChar (b64EncChar v) = some v := by decide

theorem b64_roundtrip : ∀ bytes : List Nat, (∀ x ∈ bytes, x < 256) →
    b64Decode (b64Encode bytes) = bytes := by
  intro bytes
  induction bytes using b64Encode.induct with
  | case1 => intro h; rfl
  | case2 a =>
    intro h
    have ha := h a (by simp)
    unfold b64Decode b64Encode
    have h1 := b64_roundchar (a / 4) (by omega)
    have h2 := b64_roundchar (a % 4 * 16) (by omega)
    have h3 : b64DecChar ('=') = none := rfl
    simp only [List.filterMap_cons, h1, h2, h3, List.filterMap_nil]
    unfold b64DecodeVals
    have : a / 4 * 4 + a % 4 * 16 / 16 = a := by omega
    rw [this]
  | case3 a b =>
    intro h
    have ha := h a (by simp)
    have hb := h b (by simp)
    unfold b64Decode b64Encode
    have h1 := b64_roundchar (a / 4) (by omega)
    have h2 := b64_roundchar (a % 4 * 16 + b / 16) (by omega)
    have h3 := b64_roundchar (b % 16 * 4) (by omega)
    have h4 : b64DecChar ('=') = none := rfl
    simp only [List.filterMap_cons, h1, h2, h3, h4, List.filterMap_nil]
    unfold b64DecodeVals
    have e1 : a / 4 * 4 + (a % 4 * 16 + b / 16) / 16 = a := by omega
    have e2 : (a % 4 * 16 + b / 16) % 16 * 16 + b % 16 * 4 / 4 = b := by omega
    rw [e1, e2]
  | case4 a b c rest ih =>
    intro h
    have ha := h a (by simp)
    have hb := h b (by simp)
    have hc := h c (by simp)
    have hrest : ∀ x ∈ rest, x < 256 := fun x hx => h x (by simp [hx])
    have ihr := ih hrest
    unfold b64Decode b64Encode
    have h1 := b64_roundchar (a / 4) (by omega)
    have h2 := b64_roundchar (a % 4 * 16 + b / 16) (by omega)
    have h3 := b64_roundchar (b % 16 * 4 + c / 64) (by omega)
    have h4 := b64_roundchar (c % 64) (by omega)
    simp only [List.filterMap_cons, h1, h2, h3, h4]
    unfold b64DecodeVals
    have e1 : a / 4 * 4 + (a % 4 * 16 + b / 16) / 16 = a := by omega
    have e2 : (a % 4 * 16 + b / 16) % 16 * 16 + (b % 16 * 4 + c / 64) / 4 = b := by
      omega
    have e3 : (b % 16 * 4 + c / 64) % 4 * 64 + c % 64 = c := by omega
    rw [e1, e2, e3]
    unfold b64Decode at ihr
    rw [ihr]

theorem hexVal_hexDigit : ∀ v < 16, hexVal (hexDigitChar v) = some v := by decide

theorem parseJ_normal_quote (rest : List Char) :
    parseJStringAux JMode.normal ('"' :: rest) = some ([], rest) := by
  simp only [parseJStringAux, if_true]

theorem parseJ_normal_bslash (rest : List Char) :
    parseJStringAux JMode.normal ('\\' :: rest) = parseJStringAux JMode.esc rest := by
  simp only [parseJStringAux, if_true, if_false]
  rw [if_neg (by decide)]

theorem parseJ_normal_raw (c : Char) (rest : List Char) (h1 : c ≠ '"')
    (h2 : c ≠ '\\') (h3 : ¬ c.toNat < 0x20) :
    parseJStringAux JMode.normal (c :: rest) =
      Option.map (fun p => (c :: p.1, p.2)) (parseJStringAux JMode.normal rest) := by
  simp only [parseJStringAux, eq_false h1, eq_false h2, eq_false h3, if_false]

theorem parseJ_esc_u (rest : List Char) :
    parseJStringAux JMode.esc ('u' :: rest) = parseJStringAux (JMode.hex 4 0) rest := by
  simp only [parseJStringAux, if_true]

theorem parseJ_esc_pair (e u : Char) (rest : List Char) (hne : e ≠ 'u')
    (hu : unescapeChar e = some u) :
    parseJStringAux JMode.esc (e :: rest) =
      Option.map (fun p => (u :: p.1, p.2)) (parseJStringAux JMode.normal rest) := by
  simp only [parseJStringAux, eq_false hne, if_false, hu]

theorem parseJ_hex_step (k k2 acc : Nat) (c : Char) (v : Nat) (rest : List Char)
    (hv : hexVal c = some v) (hk : k ≠ 1) (hk2 : k - 1 = k2) :
    parseJStringAux (JMode.hex k acc) (c :: rest) =
      parseJStringAux (JMode.hex k2 (acc * 16 + v)) rest := by
  simp only [parseJStringAux, hv, eq_false hk, if_false, hk2]

theorem parseJ_hex_last (acc : Nat) (c : Char) (v : Nat) (rest : List Char)
    (hv : hexVal c = some v) (hval : validScalar (acc * 16 + v) = true) :
    parseJStringAux (JMode.hex 1 acc) (c :: rest) =
      Option.map (fun p => (Char.ofNat (acc * 16 + v) :: p.1, p.2))
        (parseJStringAux JMode.normal rest) := by
  simp only [parseJStringAux, hv, hval, if_true]

theorem parse_escU (d1 d2 : Char) (v1 v2 : Nat) (rest : List Char)
    (h1 : hexVal d1 = some v1) (h2 : hexVal d2 = some v2)
    (hval : validScalar (v1 * 16 + v2) = true) :
    parseJStringAux JMode.normal ('\\' :: 'u' :: '0' :: '0' :: d1 :: d2 :: rest) =
      Option.map (fun p => (Char.ofNat (v1 * 16 + v2) :: p.1, p.2))
        (parseJStringAux JMode.normal rest) := by
  
  have hacc : (((0 * 16 + 0) * 16 + 0) * 16 + v1) * 16 + v2 = v1 * 16 + v2 := by omega
  have hval2 : validScalar ((((0 * 16 + 0) * 16 + 0) * 16 + v1) * 16 + v2) = true := by
    rw [hacc]
    exact hval
  rw [parseJ_normal_bslash, parseJ_esc_u,
    parseJ_hex_step 4 3 0 '0' 0 _ rfl (by decide) (by decide),
    parseJ_hex_step 3 2 (0 * 16 + 0) '0' 0 _ rfl (by decide) (by decide),
    parseJ_hex_step 2 1 ((0 * 16 + 0) * 16 + 0) d1 v1 _ h1 (by decide) (by decide),
    parseJ_hex_last (((0 * 16 + 0) * 16 + 0) * 16 + v1) d2 v2 _ h2 hval2, hacc]

theorem parseJString_escape (s : List Char) (r : List Char) :
    parseJStringAux JMode.normal (escapeJsonString s ++ '"' :: r) = some (s, r) := by
  induction s with
  | nil =>
    show parseJStringAux JMode.normal ('"' :: r) = some ([], r)
    exact parseJ_normal_quote r
  | cons c cs ih =>
    have he : escapeJsonString (c :: cs) ++ '"' :: r =
        escapeJsonChar c ++ (escapeJsonString cs ++ '"' :: r) := by
      simp [escapeJsonString]
    rw [he]
    by_cases h1 : c = '"'
    · subst h1
      rw [show escapeJsonChar ('"') = ['\\', '"'] from rfl]
      rw [List.cons_append, List.cons_append, List.nil_append]
      rw [parseJ_normal_bslash, parseJ_esc_pair '\"' '\"' _ (by decide) (by decide), ih]
      rfl
    · by_cases h2 : c = '\\'
      · subst h2
        rw [show escapeJsonChar ('\\') = ['\\', '\\'] from rfl]
        rw [List.cons_append, List.cons_append, List.nil_append]
        rw [parseJ_normal_bslash, parseJ_esc_pair '\\' '\\' _ (by decide) (by decide), ih]
        rfl
      · by_cases h3 : c = '\n'
        · subst h3
          rw [show escapeJsonChar ('\n') = ['\\', 'n'] from rfl]
          rw [List.cons_append, List.cons_append, List.nil_append]
          rw [parseJ_normal_bslash, parseJ_esc_pair 'n' '\n' _ (by decide) (by decide), ih]
          rfl
        · by_cases h4 : c = '\r'
          · subst h4
            rw [show escapeJsonChar ('\r') = ['\\', 'r'] from rfl]
            rw [List.cons_append, List.cons_append, List.nil_append]
            rw [parseJ_normal_bslash, parseJ_esc_pair 'r' '\r' _ (by decide) (by decide), ih]
            rfl
          · by_cases h5 : c = '\t'
            · subst h5
              rw [show escapeJsonChar ('\t') = ['\\', 't'] from rfl]
              rw [List.cons_append, List.cons_append, List.nil_append]
              rw [parseJ_normal_bslash, parseJ_esc_pair 't' '\t' _ (by decide) (by decide), ih]
              rfl
            · by_cases h6 : c.toNat = 8
              · have hc : c = Char.ofNat 8 := by
                  rw [← Char.ofNat_toNat c, h6]
                subst hc
                rw [show escapeJsonChar (Char.ofNat 8) = ['\\', 'b'] from rfl]
                rw [List.cons_append, List.cons_append, List.nil_append]
                rw [parseJ_normal_bslash, parseJ_esc_pair 'b' (Char.ofNat 8) _ (by decide) (by decide), ih]
                rfl
              · by_cases h7 : c.toNat = 12
                · have hc : c = Char.ofNat 12 := by
                    rw [← Char.ofNat_toNat c, h7]
                  subst hc
                  rw [show escapeJsonChar (Char.ofNat 12) = ['\\', 'f'] from rfl]
                  rw [List.cons_append, List.cons_append, List.nil_append]
                  rw [parseJ_normal_bslash, parseJ_esc_pair 'f' (Char.ofNat 12) _ (by decide) (by decide), ih]
                  rfl
                · by_cases h8 : c.toNat < 0x20
                  · have hesc : escapeJsonChar c =
                        ['\\', 'u', '0', '0', hexDigitChar (c.toNat / 16),
                         hexDigitChar (c.toNat % 16)] := by
                      unfold escapeJsonChar
                      rw [if_neg h1, if_neg h2, if_neg h3, if_neg h4, if_neg h5,
                        if_neg h6, if_neg h7, if_pos h8]
                    have hq : c.toNat / 16 * 16 + c.toNat % 16 = c.toNat := by omega
                    rw [hesc]
                    simp only [List.cons_append, List.nil_append]
                    rw [parse_escU _ _ (c.toNat / 16) (c.toNat % 16) _
                      (hexVal_hexDigit _ (by omega)) (hexVal_hexDigit _ (by omega))
                      (by
                        rw [hq]
                        exact decide_eq_true (Or.inl (by omega)))]
                    rw [hq, Char.ofNat_toNat, ih]
                    rfl
                  · have hesc : escapeJsonChar c = [c] := by
                      unfold escapeJsonChar
                      rw [if_neg h1, if_neg h2, if_neg h3, if_neg h4, if_neg h5,
                        if_neg h6, if_neg h7, if_neg h8]
                    rw [hesc, List.cons_append, List.nil_append]
                    rw [parseJ_normal_raw c _ h1 h2 h8, ih]
                    rfl

theorem digitsFuel_lt : ∀ (fuel n : Nat), ∀ d ∈ digitsFuel fuel n, d < 10 := by
  intro fuel
  induction fuel with
  | zero => intro n d hd; simp [digitsFuel] at hd
  | succ f ih =>
    intro n d hd
    by_cases hn : n = 0
    · simp [digitsFuel, hn] at hd
    · simp only [digitsFuel, if_neg hn, List.mem_cons] at hd
      rcases hd with h | h
      · omega
      · exact ih _ _ h

theorem digitsFuel_val : ∀ (fuel n : Nat), n ≤ fuel →
    digitsValLE (digitsFuel fuel n) = n := by
  intro fuel
  induction fuel with
  | zero =>
    intro n h
    have hn : n = 0 := by omega
    subst hn
    rfl
  | succ f ih =>
    intro n h
    by_cases hn : n = 0
    · subst hn; rfl
    · simp only [digitsFuel, if_neg hn, digitsValLE]
      rw [ih (n / 10) (by omega)]
      omega

theorem digitChar_isDigit : ∀ d < 10, (digitChar d).isDigit = true := by decide

theorem digitChar_val : ∀ d < 10, (digitChar d).toNat - 48 = d := by decide

theorem natChars_ne_nil (n : Nat) : natChars n ≠ [] := by
  unfold natChars
  by_cases hn : n = 0
  · simp [hn]
  · rw [if_neg hn]
    have h1 : digitsFuel n n ≠ [] := by
      cases n with
      | zero => exact absurd rfl hn
      | succ m =>
        simp only [digitsFuel]
        rw [if_neg (by omega)]
        exact List.cons_ne_nil _ _
    intro hcontra
    have h2 := congrArg List.length hcontra
    simp only [List.length_map, List.length_reverse, List.length_nil] at h2
    exact h1 (List.eq_nil_of_length_eq_zero h2)

theorem natChars_digits (n : Nat) : ∀ c ∈ natChars n, c.isDigit = true := by
  intro c hc
  unfold natChars at hc
  by_cases hn : n = 0
  · rw [if_pos hn] at hc
    simp only [List.mem_singleton] at hc
    subst hc
    decide
  · rw [if_neg hn] at hc
    unfold natDigitsLE at hc
    simp only [List.mem_map, List.mem_reverse] at hc
    obtain ⟨d, hd, hdc⟩ := hc
    subst hdc
    exact digitChar_isDigit d (digitsFuel_lt n n d hd)

theorem natChars_val (n : Nat) :
    digitsValLE (((natChars n).map (fun c => c.toNat - 48)).reverse) = n := by
  by_cases hn : n = 0
  · subst hn; rfl
  · rw [show natChars n = (natDigitsLE n).reverse.map digitChar from by
      unfold natChars; rw [if_neg hn]]
    rw [List.map_map, List.map_reverse, List.reverse_reverse]
    have hmap : (natDigitsLE n).map ((fun c => c.toNat - 48) ∘ digitChar) =
        natDigitsLE n := by
      have hpt : ∀ d ∈ natDigitsLE n,
          ((fun c => c.toNat - 48) ∘ digitChar) d = id d :=
        fun d hd => digitChar_val d (digitsFuel_lt n n d hd)
      rw [List.map_congr_left hpt, List.map_id]
    rw [hmap]
    exact digitsFuel_val n n (le_refl n)

theorem jsonParse_stringify (p : TokenPayload) :
    jsonParsePayload (jsonStringifyPayload p) = some p := by
  have h1 : jsonStringifyPayload p =
      userIdKeyLit ++ (escapeJsonString p.userId.toList ++ '"' ::
        (expKeyLit ++ (natChars p.exp ++ ['}']))) := by
    unfold jsonStringifyPayload
    simp [List.cons_append, List.append_assoc]
  have h2 : parseJStringAux JMode.normal (escapeJsonString p.userId.toList ++ '"' ::
      (expKeyLit ++ (natChars p.exp ++ ['}']))) =
      some (p.userId.toList, expKeyLit ++ (natChars p.exp ++ ['}'])) :=
    parseJString_escape _ _
  have h3 : stripPrefixChars expKeyLit (expKeyLit ++ (natChars p.exp ++ ['}'])) =
      some (natChars p.exp ++ ['}']) := stripPrefix_self_append _ _
  have h4 : (natChars p.exp ++ ['}']).takeWhile (fun c => c.isDigit) =
      natChars p.exp :=
    takeWhile_append_stop _ _ _ _ (fun x hx => natChars_digits p.exp x hx) (by decide)
  have h5 : (natChars p.exp).isEmpty = false := by
    cases hnc : natChars p.exp with
    | nil => exact absurd hnc (natChars_ne_nil p.exp)
    | cons a l => rfl
  have h6 : (natChars p.exp ++ ['}']).drop (natChars p.exp).length = ['}'] :=
    List.drop_left _ _
  rw [h1]
  unfold jsonParsePayload
  rw [stripPrefix_self_append]
  simp only [parseJString, h2, h3, h4, h5, h6, Bool.false_eq_true, if_false]
  rw [natChars_val]
  rfl

theorem decodeTokenPayload_generate (userId : String) (now : Nat) :
    decodeTokenPayload (generateToken userId now) =
      some { userId := userId, exp := now + sevenDaysMs } := by
  unfold decodeTokenPayload generateToken
  rw [b64_roundtrip _ (utf8Encode_lt256 _), utf8_roundtrip]
  simp only [jsonParse_stringify]

theorem parseToken_generateToken (userId : String) (now tCheck : Nat) :
    parseToken (generateToken userId now) tCheck =
      if now + sevenDaysMs < tCheck then none
      else some { userId := userId, exp := now + sevenDaysMs } := by
  unfold parseToken
  rw [decodeTokenPayload_generate]

/-- C10: token round-trip for `generateToken`/`parseToken`.  For every
userId and issue time, parsing the generated token at any time strictly
before the recorded 7-day expiry returns the payload with that userId;
strictly after the expiry it returns null.  Correction to the claim: at
exactly the recorded expiry instant the code's strict comparison
`payload.exp < Date.now()` still returns the payload, not null.  Any token
whose decode fails yields null (the catch) rather than an exception. -/
theorem c10_token_roundtrip (userId : String) (now t : Nat) (token : List Char) :
    (t < now + sevenDaysMs → parseToken (generateToken userId now) t =
        some { userId := userId, exp := now + sevenDaysMs }) ∧
    (now + sevenDaysMs < t → parseToken (generateToken userId now) t = none) ∧
    (parseToken (generateToken userId now) (now + sevenDaysMs) =
        some { userId := userId, exp := now + sevenDaysMs }) ∧
    (decodeTokenPayload token = none → parseToken token t = none) := by
  refine ⟨?_, ?_, ?_, ?_⟩
  · intro ht
    rw [parseToken_generateToken, if_neg (by omega)]
  · intro ht
    rw [parseToken_generateToken, if_pos ht]
  · rw [parseToken_generateToken, if_neg (by omega)]
  · intro hd
    unfold parseToken
    rw [hd]

/-- C10 counterexample to the claim as frozen: a token checked at exactly
its recorded expiry time still yields the payload, because the code
compares with strict `<`. -/
theorem c10_counterexample :
    parseToken (generateToken "u" 0) (0 + sevenDaysMs) =
      some { userId := "u", exp := 0 + sevenDaysMs } := by
  rw [parseToken_generateToken, if_neg (by omega)]

/-- C10 witness: the round-trip theorem instantiated at userId `u`, issue
time 0, concrete check times, and the non-base64 token `!`. -/
theorem c10_witness :
    parseToken (generateToken "u" 0) 3 =
      some { userId := "u", exp := 0 + sevenDaysMs } ∧
    parseToken (generateToken "u" 0) (0 + sevenDaysMs + 1) = none ∧
    parseToken ['!'] 5 = none :=
  ⟨(c10_token_roundtrip "u" 0 3 ['!']).1 (by decide),
   (c10_token_roundtrip "u" 0 (0 + sevenDaysMs + 1) ['!']).2.1 (by decide),
   (c10_token_roundtrip "u" 0 5 ['!']).2.2.2 (by rfl)⟩
